import Mathlib

/-!
Shallow embedding of `src/site_analyzer.py` (classes `TechnicalAnalyzer` and
`SiteCrawler`) and proofs about it.

Modelling conventions, used throughout:
* URLs and all other Python strings are Lean `String`s.
* Results of the external `urllib.parse` helpers (`urlparse(u).netloc`,
  `urlparse(u).scheme`) are supplied as oracle functions of the site model,
  and `urljoin` is absorbed by letting page documents list the already
  resolved absolute URLs of their anchors, in document order.
* Python `dict`s become association lists in insertion order, Python `set`s
  become duplicate-free lists in insertion order, `collections.defaultdict`
  lookups become total lookups with the default value (and, where the code
  relies on it, the key-creating side effect of a defaultdict access is
  modelled explicitly).
* Fallible Python code returns `Except`; a raised exception carries the
  mutated state at the raise point, as the mutations of `self` survive an
  exception in Python.
* The network is an oracle: each HTTP interaction the code performs is a
  function from the request data (and, for `check_url`, the attempt number)
  to the outcome.
-/

namespace SiteAnalyzer

/-- Lookup in an association list (Python `d.get(k)` / `k in d`). -/
def alookup {κ α : Type} [DecidableEq κ] (m : List (κ × α)) (k : κ) : Option α :=
  match m with
  | [] => none
  | (a, v) :: t => if a = k then some v else alookup t k

/-- Key membership (Python `k in d`). -/
def hasKey {κ α : Type} [DecidableEq κ] (m : List (κ × α)) (k : κ) : Bool :=
  (alookup m k).isSome

/-- Assignment `d[k] = v`: replaces the value at `k`, or appends a new entry
(Python dicts keep insertion order, new keys go last). -/
def setVal {κ α : Type} [DecidableEq κ] (m : List (κ × α)) (k : κ) (v : α) :
    List (κ × α) :=
  match m with
  | [] => [(k, v)]
  | (a, w) :: t => if a = k then (a, v) :: t else (a, w) :: setVal t k v

/-- Keys of an association list, in insertion order (Python `d.keys()`). -/
def keysOf {κ α : Type} (m : List (κ × α)) : List κ := m.map Prod.fst

/-- Lookup in a `defaultdict(set)`: the default is the empty set. -/
def getSet (m : List (String × List String)) (k : String) : List String :=
  (alookup m k).getD []

/-- The mutation `d[k].add(x)` on a `defaultdict(set)`: ensures the key exists
and adds `x` to its set (a no-op when `x` is already there). -/
def addToSet (m : List (String × List String)) (k x : String) :
    List (String × List String) :=
  match m with
  | [] => [(k, [x])]
  | (a, l) :: t =>
    if a = k then (if x ∈ l then (a, l) :: t else (a, l ++ [x]) :: t)
    else (a, l) :: addToSet t k x

/-- The key-creating side effect of a bare `defaultdict` access `d[k]`. -/
def ensureKey (m : List (String × List String)) (k : String) :
    List (String × List String) :=
  if hasKey m k then m else m ++ [(k, [])]

/-- Lookup in a `defaultdict(int)`: the default is `0`. -/
def getCount (m : List (String × Nat)) (k : String) : Nat :=
  (alookup m k).getD 0

/-- The mutation `d[k] += 1` on a `defaultdict(int)`. -/
def incCount {κ : Type} [DecidableEq κ] (m : List (κ × Nat)) (k : κ) :
    List (κ × Nat) :=
  match m with
  | [] => [(k, 1)]
  | (a, n) :: t => if a = k then (a, n + 1) :: t else (a, n) :: incCount t k

/-- The mutation `s.add(x)` on a Python `set`, modelled as a duplicate-free
list in insertion order. -/
def setAdd (s : List String) (x : String) : List String :=
  if x ∈ s then s else s ++ [x]

/-- The mutation `d[k].append(x)` for an existing key of a `dict` of lists
(a no-op when the key is absent; all uses are guarded by a key check). -/
def appendAt (m : List (String × List String)) (k x : String) :
    List (String × List String) :=
  match m with
  | [] => []
  | (a, l) :: t => if a = k then (a, l ++ [x]) :: t else (a, l) :: appendAt t k x

/-- Python exceptions the analyzed code distinguishes. -/
inductive PyExn where
  | requestException (msg : String)
  | jsonDecodeError (msg : String)
  | attributeError (msg : String)
  | valueError (msg : String)
  | otherError (msg : String)
deriving DecidableEq, Repr

/-- Python `str(e)` on an exception. -/
def PyExn.msg : PyExn → String
  | .requestException m => m
  | .jsonDecodeError m => m
  | .attributeError m => m
  | .valueError m => m
  | .otherError m => m

/-! ## TechnicalAnalyzer -/

/-- What `check_url` reads off a `requests` response: the URLs of the redirect
hops (`r.url` for `r in response.history`), the final URL and the final
status code.  The elapsed latency is wall-clock time and is not modelled. -/
structure HttpResponse where
  history : List String
  url : String
  status_code : Nat
deriving DecidableEq, Repr

/-- Outcome of one `self.session.head(url, ...)` call: a response, or a raised
`requests.RequestException`. -/
inductive NetResult where
  | resp (r : HttpResponse)
  | raised (msg : String)
deriving DecidableEq, Repr

/-- A network oracle: the outcome of probing a URL on a given attempt number
(attempts are numbered from 1). -/
def Net : Type := String → Nat → NetResult

/-- One recorded entry of `self.redirect_chains` (src/site_analyzer.py:59). -/
structure ChainRecord where
  chain : List String
  count : Nat
  final_status : Nat
  has_loop : Bool
deriving DecidableEq, Repr

/-- Keys of `self.broken_links`: a numeric status code, or `'error'`. -/
inductive BLKey where
  | status (code : Nat)
  | error
deriving DecidableEq, Repr

/-- One appended broken-link record: for a status-code entry, the optional
redirect chain; for an `'error'` entry, `str(e)` of the exception. -/
structure BrokenEntry where
  url : String
  is_internal : Bool
  redirect_chain : Option ChainRecord
  error_msg : Option String
deriving DecidableEq, Repr

/-- The mutation `self.broken_links[k].append(e)` (a `defaultdict(list)`). -/
def addBroken (m : List (BLKey × List BrokenEntry)) (k : BLKey) (e : BrokenEntry) :
    List (BLKey × List BrokenEntry) :=
  match m with
  | [] => [(k, [e])]
  | (a, l) :: t => if a = k then (a, l ++ [e]) :: t else (a, l) :: addBroken t k e

/-- Mutable state of a `TechnicalAnalyzer` instance (src/site_analyzer.py:31). -/
structure TechState where
  broken_links : List (BLKey × List BrokenEntry)
  redirect_chains : List (String × ChainRecord)
  sitemap_issues : List String
  redirect_loops : Nat
deriving DecidableEq, Repr

def TechState.init : TechState := ⟨[], [], [], 0⟩

def addSitemapIssue (st : TechState) (s : String) : TechState :=
  { st with sitemap_issues := st.sitemap_issues ++ [s] }

/-- tenacity `wait_exponential(multiplier, min, max)`: the sleep (in seconds)
scheduled after the `n`-th failed attempt is `multiplier * exp_base ** n`
(with the default `exp_base = 2`) clamped into `[min, max]`. -/
def wait_exponential (multiplier mn mx n : Nat) : Nat :=
  Nat.max mn (Nat.min (multiplier * 2 ^ n) mx)

deriving instance DecidableEq for Except

/-- Result of a tenacity-wrapped call: how many attempts ran, the sleeps that
were performed between attempts, the state after the last attempt, and the
returned value (or, after the final attempt also failed, the re-raised
exception). -/
structure RetryResult (σ α : Type) where
  attemptsMade : Nat
  waits : List Nat
  state : σ
  value : Except PyExn α
deriving Repr, DecidableEq

/-- The retry loop of tenacity `@retry(stop=stop_after_attempt(maxA), wait=
wait_exponential(multiplier=1, min=4, max=10))` (src/site_analyzer.py:42):
run the wrapped body; when it raises, sleep and rerun; stop after the body
returns or `maxA` attempts raised.  `remaining` counts the retries still
allowed, so the recursion is structural; `retryCall` starts it with
`maxA - 1` retries at attempt number 1. -/
def retryGo {σ α : Type} (f : Nat → σ → σ × Except PyExn α) :
    Nat → Nat → List Nat → σ → RetryResult σ α
  | remaining, n, ws, st =>
    match f n st with
    | (st', .ok a) => ⟨n, ws.reverse, st', .ok a⟩
    | (st', .error e) =>
      match remaining with
      | r + 1 => retryGo f r (n + 1) (ws ++ [wait_exponential 1 4 10 n]) st'
      | 0 => ⟨n, ws.reverse, st', .error e⟩

def retryCall {σ α : Type} (maxA : Nat) (f : Nat → σ → σ × Except PyExn α)
    (st : σ) : RetryResult σ α :=
  retryGo f (maxA - 1) 1 [] st

/-- The body of `TechnicalAnalyzer.check_url` (src/site_analyzer.py:43-82),
as one attempt: the whole body is a `try` whose `except requests.
RequestException` clause records an `'error'` broken link and returns `None`,
so an attempt never lets the network exception escape to the decorator. -/
def check_url_attempt (net : Net) (url : String) (is_internal : Bool)
    (n : Nat) (st : TechState) : TechState × Except PyExn (Option HttpResponse) :=
  match net url n with
  | .resp r =>
    let st :=
      if r.history.length > 0 then
        let chain := r.history ++ [r.url]
        let has_loop := decide (chain.dedup.length < chain.length)
        let st :=
          if has_loop then { st with redirect_loops := st.redirect_loops + 1 } else st
        let cr0 : ChainRecord := ⟨chain, r.history.length, r.status_code, has_loop⟩
        { st with redirect_chains := setVal st.redirect_chains url cr0 }
      else st
    let st :=
      if r.status_code ≥ 400 then
        let be : BrokenEntry := ⟨url, is_internal, alookup st.redirect_chains url, none⟩
        { st with broken_links := addBroken st.broken_links (.status r.status_code) be }
      else st
    (st, .ok (some r))
  | .raised e =>
    let be : BrokenEntry := ⟨url, is_internal, none, some e⟩
    ({ st with broken_links := addBroken st.broken_links .error be }, .ok none)

/-- `TechnicalAnalyzer.check_url` with its `@retry(stop=stop_after_attempt(3),
wait=wait_exponential(multiplier=1, min=4, max=10))` decorator. -/
def check_url (net : Net) (url : String) (is_internal : Bool) (st : TechState) :
    RetryResult TechState (Option HttpResponse) :=
  retryCall 3 (check_url_attempt net url is_internal) st

/-! ### Basic lemmas about the association-list operations -/

theorem alookup_setVal_self {κ α : Type} [DecidableEq κ]
    (m : List (κ × α)) (k : κ) (v : α) : alookup (setVal m k v) k = some v := by
  induction m with
  | nil => simp [setVal, alookup]
  | cons h t ih =>
    obtain ⟨a, w⟩ := h
    by_cases hak : a = k
    · simp [setVal, hak, alookup]
    · simp [setVal, hak, alookup, ih]

theorem alookup_setVal_other {κ α : Type} [DecidableEq κ]
    (m : List (κ × α)) (k k' : κ) (v : α) (hne : k ≠ k') :
    alookup (setVal m k v) k' = alookup m k' := by
  induction m with
  | nil => simp [setVal, alookup, hne]
  | cons h t ih =>
    obtain ⟨a, w⟩ := h
    by_cases hak : a = k
    · subst hak; simp [setVal, alookup, hne]
    · simp [setVal, hak, alookup, ih]

/-- `len(set(l)) < len(l)` is exactly "the sequence has a duplicate". -/
theorem dedup_length_lt_iff_not_nodup (l : List String) :
    l.dedup.length < l.length ↔ ¬ l.Nodup := by
  constructor
  · intro h hn
    rw [List.dedup_eq_self.mpr hn] at h
    exact lt_irrefl _ h
  · intro hn
    have hsub := List.dedup_sublist l
    rcases eq_or_lt_of_le hsub.length_le with he | hl
    · exact absurd (hsub.eq_of_length he ▸ l.nodup_dedup) hn
    · exact hl

/-! ### Claim C3: the retry/backoff contract of `check_url` -/

/-- A network that fails transiently: the first attempt raises, any further
attempt would succeed with a plain 200 response. -/
def transientNet : Net := fun _ n =>
  if n = 1 then .raised "Connection reset by peer"
  else .resp ⟨[], "https://example.com/a", 200⟩

/-- Claim C3, what the code actually does: `check_url` never performs more
than one attempt and never sleeps, because the body of `check_url` catches
`requests.RequestException` itself and returns `None`, so the `@retry`
decorator never sees a network failure.  In particular, on a transient
failure (first attempt raises, a second attempt would have succeeded) the
URL is immediately recorded as an `'error'` broken link after exactly one
attempt, with no backoff — the claimed "up to 3 attempts with exponential
backoff" never happens. -/
theorem claim_C3_no_retry :
    (∀ (net : Net) (url : String) (b : Bool) (st : TechState),
      (check_url net url b st).attemptsMade = 1 ∧ (check_url net url b st).waits = []) ∧
    ((check_url transientNet "https://example.com/a" true TechState.init).attemptsMade = 1 ∧
     (check_url transientNet "https://example.com/a" true TechState.init).value = .ok none ∧
     (check_url transientNet "https://example.com/a" true TechState.init).state.broken_links =
       [(.error, [⟨"https://example.com/a", true, none, some "Connection reset by peer"⟩])]) := by
  constructor
  · intro net url b st
    unfold check_url retryCall retryGo check_url_attempt
    cases net url 1 <;> simp
  · decide

/-! ### Claim C6: the redirect-loop flag -/

/-- Modelled from the spec (claim C6): the chain's URL sequence "contains a
duplicate before its final element". -/
def specDupBeforeFinal (chain : List String) : Prop := ¬ chain.dropLast.Nodup

instance (chain : List String) : Decidable (specDupBeforeFinal chain) := by
  unfold specDupBeforeFinal; infer_instance

/-- A network whose response revisits the probed URL only as the final
element of the redirect chain: history `[/loop, /a]`, final URL `/loop`. -/
def loopNet : Net := fun _ _ =>
  .resp ⟨["https://l.com/loop", "https://l.com/a"], "https://l.com/loop", 200⟩

/-- Claim C6 as amended: for a probed URL whose response had at least one
redirect hop, the recorded chain is `history ++ [final url]`, its loop flag
is set iff the sequence contains a duplicate anywhere — equivalently iff the
set of visited URLs is smaller than the sequence length; the repeated URL may
be the final element — and a looping chain bumps the global redirect-loop
counter by exactly 1 while the chain is still recorded. -/
theorem claim_C6_loop_flag (net : Net) (url : String) (b : Bool) (st : TechState)
    (r : HttpResponse) (h1 : net url 1 = .resp r) (h2 : r.history ≠ []) :
    alookup (check_url net url b st).state.redirect_chains url =
      some ⟨r.history ++ [r.url], r.history.length, r.status_code,
            decide (¬ (r.history ++ [r.url]).Nodup)⟩ ∧
    ((¬ (r.history ++ [r.url]).Nodup) ↔
      (r.history ++ [r.url]).dedup.length < (r.history ++ [r.url]).length) ∧
    (check_url net url b st).state.redirect_loops =
      st.redirect_loops + (if (r.history ++ [r.url]).Nodup then 0 else 1) := by
  have hiff := dedup_length_lt_iff_not_nodup (r.history ++ [r.url])
  have hlen : 0 < r.history.length := List.length_pos.mpr h2
  have hdec : decide ((r.history ++ [r.url]).dedup.length < (r.history ++ [r.url]).length)
      = decide (¬ (r.history ++ [r.url]).Nodup) := decide_eq_decide.mpr hiff
  unfold check_url retryCall retryGo check_url_attempt
  rw [h1]
  simp only [hlen, if_pos, hdec]
  refine ⟨?_, hiff.symm, ?_⟩
  · split <;> simp [alookup_setVal_self]
  · by_cases hnd : (r.history ++ [r.url]).Nodup <;> simp [hnd] <;> split <;> rfl

/-- Claim C6, counterexample to the claim as stated: for the chain
`/loop → /a → /loop` the code sets the loop flag (and counts a loop), yet the
sequence contains no duplicate before its final element — the two
characterizations the claim equates disagree here. -/
theorem claim_C6_counterexample :
    (check_url loopNet "https://l.com/loop" true TechState.init).state =
      ⟨[], [("https://l.com/loop",
            ⟨["https://l.com/loop", "https://l.com/a", "https://l.com/loop"], 2, 200, true⟩)],
       [], 1⟩ ∧
    ¬ specDupBeforeFinal
        ["https://l.com/loop", "https://l.com/a", "https://l.com/loop"] := by
  constructor
  · decide
  · decide

/-- Claim C6, witness: the amended statement at the concrete looping chain. -/
theorem claim_C6_witness :
    alookup (check_url loopNet "https://l.com/loop" true TechState.init).state.redirect_chains
        "https://l.com/loop" =
      some ⟨["https://l.com/loop", "https://l.com/a", "https://l.com/loop"], 2, 200,
            decide (¬ (["https://l.com/loop", "https://l.com/a", "https://l.com/loop"] :
              List String).Nodup)⟩ ∧
    ((¬ (["https://l.com/loop", "https://l.com/a", "https://l.com/loop"] :
        List String).Nodup) ↔
      (["https://l.com/loop", "https://l.com/a", "https://l.com/loop"] :
        List String).dedup.length < 3) ∧
    (check_url loopNet "https://l.com/loop" true TechState.init).state.redirect_loops =
      TechState.init.redirect_loops +
        (if (["https://l.com/loop", "https://l.com/a", "https://l.com/loop"] :
            List String).Nodup then 0 else 1) :=
  claim_C6_loop_flag loopNet "https://l.com/loop" true TechState.init
    ⟨["https://l.com/loop", "https://l.com/a"], "https://l.com/loop", 200⟩ rfl (by decide)

/-! ## Parsed page documents and the site model -/

/-- A parsed JSON-LD value, abstracted to what `analyze_structured_data`
inspects: a JSON object is reduced to the value of its `"@type"` key when
that value is a string (absent or non-string `"@type"` values are `none`);
arrays and strings are kept as such, since only their Python type matters. -/
inductive JVal where
  | jobj (typ : Option String)
  | jarr (items : List JVal)
  | jstr (s : String)

/-- Python `schema.get("@type", "")`: on a `dict`, the lookup with default
`""`; on a `list` or a `str`, an `AttributeError` (`.get` does not exist). -/
def JVal.getType : JVal → Except PyExn String
  | .jobj t => .ok (t.getD "")
  | .jarr _ => .error (.attributeError "list object has no attribute get")
  | .jstr _ => .error (.attributeError "str object has no attribute get")

/-- What the crawler reads off a rendered, BeautifulSoup-parsed page.
`links` holds the `href` targets of the page's anchors, already resolved to
absolute URLs by `urljoin`, in document order.  `title` is
`soup.title.string` when a `<title>` tag exists; `meta_description`,
`canonical` and `meta_robots` are the raw attribute values when the tag is
present (the code treats an empty string like an absent tag, by Python
truthiness); `headings i` lists the stripped texts of the level-`i` heading
tags; `images` lists `(src, alt)` attribute values with `""` defaults;
`main_content` is the text of the first main/article/content container when
one exists; `json_ld` holds the `json.loads` outcome of each
`application/ld+json` script; `microdata` the `itemtype` attribute values;
`rdfa` the `vocab` attribute values. -/
structure PageDoc where
  links : List String
  title : Option String
  meta_description : Option String
  headings : Nat → List String
  images : List (String × String)
  main_content : Option String
  canonical : Option String
  meta_robots : Option String
  json_ld : List (Except String JVal)
  microdata : List String
  rdfa : List String

/-- A page with nothing on it. -/
def PageDoc.empty : PageDoc :=
  ⟨[], none, none, fun _ => [], [], none, none, none, [], [], []⟩

/-- One `<url>` entry of a leaf `urlset` sitemap: the text of the optional
`loc`, `lastmod` and `priority` children. -/
structure SitemapEntry where
  loc : Option String
  lastmod : Option String
  priority : Option String
deriving DecidableEq, Repr

/-- A fetched sitemap body: unparsable XML, a `sitemapindex` holding the
texts of its `loc` references, or a leaf `urlset`. -/
inductive SitemapDoc where
  | parseError (msg : String)
  | index (locs : List String)
  | urlset (entries : List SitemapEntry)
deriving DecidableEq, Repr

/-- Outcome of `session.get(sitemap_url)`: a raised
`requests.RequestException`, or a status code with the parsed body. -/
inductive SitemapFetch where
  | raised (msg : String)
  | ok (status : Nat) (doc : SitemapDoc)
deriving DecidableEq, Repr

/-- The deterministic world one crawl runs against.  `pages` is a finite
support for `content`: every URL that renders is listed in it (sites are
finite).  `sitemaps` maps the finitely many domains that serve a sitemap to
the fetch outcome; fetching any other domain's sitemap raises a connection
error.  `iso_parse` abstracts
`datetime.fromisoformat(s.replace('Z', '+00:00'))` (`.ok`, a `ValueError`,
or another exception kind standing for the unexpected failure modes the
outer handler catches); `float_parse` abstracts `float(s)`, with Python
floats modelled as rationals; `fk_grade` abstracts
`textstat.flesch_kincaid_grade` (`none` when it raises). -/
structure Site where
  netlocOf : String → String
  schemeOf : String → String
  content : String → Option PageDoc
  pages : List String
  robots_txt : Option String
  sitemaps : List (String × SitemapFetch)
  net : Net
  iso_parse : String → Except PyExn Unit
  float_parse : String → Except PyExn Rat
  fk_grade : String → Option Rat

/-! ## Sitemap validation (`TechnicalAnalyzer.validate_sitemap`) -/

def sitemapUrlOf (domain : String) : String :=
  "https://" ++ domain ++ "/sitemap.xml"

/-- `self.session.get(f"https://{domain}/sitemap.xml", timeout=10)` plus the
XML parse, as one oracle lookup. -/
def fetchSitemap (site : Site) (domain : String) : SitemapFetch :=
  (alookup site.sitemaps domain).getD (.raised "connection error")

/-- The per-URL status check inside a leaf sitemap
(src/site_analyzer.py:113-119). -/
def entryLoc (site : Site) (st : TechState) (loc : Option String) :
    Except (PyExn × TechState) TechState :=
  match loc with
  | none => .ok st
  | some u =>
    let r := check_url site.net u true st
    match r.value with
    | .error e => .error (e, r.state)
    | .ok none => .ok r.state
    | .ok (some resp) =>
      if resp.status_code ∉ ([200, 301] : List Nat) then
        .ok (addSitemapIssue r.state
          ("Invalid status " ++ toString resp.status_code ++ " for sitemap URL: " ++ u))
      else .ok r.state

/-- The `lastmod` validation (src:121-127): a `ValueError` from the ISO-8601
parse is caught and recorded as an issue; any other exception propagates to
the outer handler. -/
def entryLastmod (site : Site) (st : TechState) (lm : Option String) :
    Except (PyExn × TechState) TechState :=
  match lm with
  | none => .ok st
  | some s =>
    match site.iso_parse s with
    | .ok _ => .ok st
    | .error (.valueError _) =>
      .ok (addSitemapIssue st ("Invalid lastmod format in sitemap: " ++ s))
    | .error e => .error (e, st)

/-- The `priority` validation (src:129-137): a value outside `[0, 1]` or a
`ValueError` from `float(...)` is recorded; other exceptions propagate. -/
def entryPriority (site : Site) (st : TechState) (pr : Option String) :
    Except (PyExn × TechState) TechState :=
  match pr with
  | none => .ok st
  | some s =>
    match site.float_parse s with
    | .ok p =>
      if ¬ (0 ≤ p ∧ p ≤ 1) then
        .ok (addSitemapIssue st ("Invalid priority value in sitemap: " ++ s))
      else .ok st
    | .error (.valueError _) =>
      .ok (addSitemapIssue st ("Invalid priority format in sitemap: " ++ s))
    | .error e => .error (e, st)

/-- One iteration of the `urlset` loop: the three checks on one `<url>`. -/
def validateEntry (site : Site) (st : TechState) (e : SitemapEntry) :
    Except (PyExn × TechState) TechState :=
  match entryLoc site st e.loc with
  | .error x => .error x
  | .ok st1 =>
    match entryLastmod site st1 e.lastmod with
    | .error x => .error x
    | .ok st2 => entryPriority site st2 e.priority

/-- The loop over the `<url>` entries of a leaf sitemap. -/
def validateEntries (site : Site) :
    List SitemapEntry → TechState → Except (PyExn × TechState) TechState
  | [], st => .ok st
  | e :: t, st =>
    match validateEntry site st e with
    | .error x => .error x
    | .ok st' => validateEntries site t st'

/-- The sitemap URLs the world can actually serve. -/
def smUrls (site : Site) : List String :=
  site.sitemaps.map (fun p => sitemapUrlOf p.1)

/-- Number of servable sitemap URLs not yet visited: the termination measure
of `validate_sitemap`. -/
def smMeasure (site : Site) (v : List String) : Nat :=
  ((smUrls site).filter (fun u => decide (u ∉ v))).length

theorem filter_length_mono (l : List String) (p q : String → Bool)
    (h : ∀ x, q x = true → p x = true) :
    (l.filter q).length ≤ (l.filter p).length := by
  induction l with
  | nil => simp
  | cons a t ih =>
    rw [List.filter_cons, List.filter_cons]
    by_cases hq : q a = true
    · simp only [hq, h a hq, if_true, List.length_cons]
      omega
    · simp only [Bool.not_eq_true] at hq
      rw [hq]
      by_cases hp : p a = true
      · simp only [hp, if_true, List.length_cons, Bool.false_eq_true, if_false]
        omega
      · simp only [Bool.not_eq_true] at hp
        rw [hp]
        simpa using ih

theorem filter_length_lt (l : List String) (p q : String → Bool) (x : String)
    (h : ∀ y, q y = true → p y = true) (hx : x ∈ l) (hpx : p x = true)
    (hqx : q x = false) : (l.filter q).length < (l.filter p).length := by
  induction l with
  | nil => cases hx
  | cons a t ih =>
    rw [List.filter_cons, List.filter_cons]
    rcases List.mem_cons.mp hx with rfl | hxt
    · rw [hpx, hqx]
      simp only [if_true, Bool.false_eq_true, if_false, List.length_cons]
      exact Nat.lt_succ_of_le (filter_length_mono t p q h)
    · by_cases hq : q a = true
      · simp only [hq, h a hq, if_true, List.length_cons]
        exact Nat.succ_lt_succ (ih hxt)
      · simp only [Bool.not_eq_true] at hq
        rw [hq]
        by_cases hp : p a = true
        · simp only [hp, if_true, Bool.false_eq_true, if_false, List.length_cons]
          exact Nat.lt_succ_of_lt (ih hxt)
        · simp only [Bool.not_eq_true] at hp
          rw [hp]
          simpa using ih hxt

theorem alookup_isSome_mem {κ α : Type} [DecidableEq κ]
    (m : List (κ × α)) (k : κ) (h : (alookup m k).isSome = true) :
    k ∈ keysOf m := by
  induction m with
  | nil => simp [alookup] at h
  | cons a t ih =>
    obtain ⟨b, w⟩ := a
    by_cases hb : b = k
    · subst hb; simp [keysOf]
    · rw [alookup, if_neg hb] at h
      simp only [keysOf, List.map_cons, List.mem_cons]
      exact Or.inr (ih h)

theorem smMeasure_lt (site : Site) (v : List String) (d : String)
    (hmem : (alookup site.sitemaps d).isSome = true)
    (hnv : sitemapUrlOf d ∉ v) :
    smMeasure site (sitemapUrlOf d :: v) < smMeasure site v := by
  apply filter_length_lt _ _ _ (sitemapUrlOf d)
  · intro y hy
    simp only [decide_eq_true_eq] at hy ⊢
    intro hmemv
    exact hy (List.mem_cons_of_mem _ hmemv)
  · have hk : d ∈ site.sitemaps.map Prod.fst := alookup_isSome_mem site.sitemaps d hmem
    simp only [smUrls, List.mem_map]
    rcases List.mem_map.mp hk with ⟨p, hp, hpd⟩
    exact ⟨p, hp, by rw [hpd]⟩
  · simpa using hnv
  · simp

theorem smMeasure_le_of_subset (site : Site) (v v' : List String)
    (hs : ∀ x ∈ v, x ∈ v') : smMeasure site v' ≤ smMeasure site v := by
  apply filter_length_mono
  intro x hx
  simp only [decide_eq_true_eq] at hx ⊢
  intro hmem
  exact hx (hs x hmem)

mutual

/-- `TechnicalAnalyzer.validate_sitemap` (src/site_analyzer.py:84-145), the
recursive core.  The visited set is threaded through as a list; the returned
visited set is a superset of the input one, which the subtype records so
that termination of the sibling loop can be established without a separate
lemma.  The body's `try` can raise only out of the `urlset` loop (the fetch
is matched directly, the recursion is total), so the two `except` handlers
of the source wrap `validateEntries`. -/
def validateSitemapGo (site : Site) (domain : String) (st : TechState)
    (v : List String) : TechState × { v' : List String // ∀ x ∈ v, x ∈ v' } :=
  if hin : sitemapUrlOf domain ∈ v then (st, ⟨v, fun _ hx => hx⟩)
  else
    have hv1 : ∀ x ∈ v, x ∈ sitemapUrlOf domain :: v :=
      fun x hx => List.mem_cons_of_mem _ hx
    match hf : fetchSitemap site domain with
    | .raised e =>
      (addSitemapIssue st ("Error fetching sitemap: " ++ e),
       ⟨sitemapUrlOf domain :: v, hv1⟩)
    | .ok status doc =>
      if status ≠ 200 then
        (addSitemapIssue st ("Sitemap not found at " ++ sitemapUrlOf domain),
         ⟨sitemapUrlOf domain :: v, hv1⟩)
      else
        match doc with
        | .parseError e =>
          (addSitemapIssue st ("Invalid XML in sitemap: " ++ e),
           ⟨sitemapUrlOf domain :: v, hv1⟩)
        | .index locs =>
          let r := validateIndexLoop site locs st (sitemapUrlOf domain :: v)
          (r.1, ⟨r.2.1, fun x hx => r.2.2 x (hv1 x hx)⟩)
        | .urlset entries =>
          match validateEntries site entries st with
          | .ok st' => (st', ⟨sitemapUrlOf domain :: v, hv1⟩)
          | .error (.requestException m, st') =>
            (addSitemapIssue st' ("Error fetching sitemap: " ++ m),
             ⟨sitemapUrlOf domain :: v, hv1⟩)
          | .error (e, st') =>
            (addSitemapIssue st' ("Unexpected error processing sitemap: " ++ e.msg),
             ⟨sitemapUrlOf domain :: v, hv1⟩)
termination_by (smMeasure site v, 0)
decreasing_by
  apply Prod.Lex.left
  apply smMeasure_lt
  · unfold fetchSitemap at hf
    cases halo : alookup site.sitemaps domain with
    | none => rw [halo] at hf; simp at hf
    | some x => simp [halo]
  · exact hin

/-- The loop over the `loc` references of a sitemap index (src:106-110): the
netloc of each reference is recursed into when it is non-empty and not in
the visited set (the latter check compares a domain against a set of sitemap
URLs, exactly as the source does). -/
def validateIndexLoop (site : Site) (locs : List String) (st : TechState)
    (v : List String) : TechState × { v' : List String // ∀ x ∈ v, x ∈ v' } :=
  match locs with
  | [] => (st, ⟨v, fun _ hx => hx⟩)
  | loc :: rest =>
    let d := site.netlocOf loc
    if d ≠ "" ∧ d ∉ v then
      let r := validateSitemapGo site d st v
      let r2 := validateIndexLoop site rest r.1 r.2.1
      (r2.1, ⟨r2.2.1, fun x hx => r2.2.2 x (r.2.2 x hx)⟩)
    else
      let r3 := validateIndexLoop site rest st v
      (r3.1, ⟨r3.2.1, r3.2.2⟩)
termination_by (smMeasure site v, locs.length + 1)
decreasing_by
  · apply Prod.Lex.right
    simp only [List.length_cons]
    omega
  · rcases Nat.lt_or_ge (smMeasure site r.2.1) (smMeasure site v) with hlt | hge
    · exact Prod.Lex.left _ _ hlt
    · have hle := smMeasure_le_of_subset site v r.2.1 r.2.2
      have heq : smMeasure site r.2.1 = smMeasure site v := le_antisymm hle hge
      rw [heq]
      apply Prod.Lex.right
      simp only [List.length_cons]
      omega
  · apply Prod.Lex.right
    simp only [List.length_cons]
    omega

end

/-- `TechnicalAnalyzer.validate_sitemap(domain, visited_sitemaps)`; the
crawler calls it with `visited_sitemaps=None`, i.e. the empty visited set. -/
def validate_sitemap (site : Site) (domain : String) (st : TechState)
    (v : List String) : TechState × List String :=
  let r := validateSitemapGo site domain st v
  (r.1, r.2.1)

/-! ### Claims C9 and C10: sitemap validation -/

/-- One unfolding step of `validate_sitemap` past the visited-set guard,
written without the dependent match so that it rewrites freely; the bridge
lemma `validate_sitemap_eq_step` ties it to the recursive definition. -/
def validateStep (site : Site) (domain : String) (st : TechState)
    (v : List String) : TechState × List String :=
  match fetchSitemap site domain with
  | .raised e =>
    (addSitemapIssue st ("Error fetching sitemap: " ++ e), sitemapUrlOf domain :: v)
  | .ok status doc =>
    if status ≠ 200 then
      (addSitemapIssue st ("Sitemap not found at " ++ sitemapUrlOf domain),
       sitemapUrlOf domain :: v)
    else
      match doc with
      | .parseError e =>
        (addSitemapIssue st ("Invalid XML in sitemap: " ++ e),
         sitemapUrlOf domain :: v)
      | .index locs =>
        let r := validateIndexLoop site locs st (sitemapUrlOf domain :: v)
        (r.1, r.2.1)
      | .urlset entries =>
        match validateEntries site entries st with
        | .ok st' => (st', sitemapUrlOf domain :: v)
        | .error (.requestException m, st') =>
          (addSitemapIssue st' ("Error fetching sitemap: " ++ m),
           sitemapUrlOf domain :: v)
        | .error (e, st') =>
          (addSitemapIssue st' ("Unexpected error processing sitemap: " ++ e.msg),
           sitemapUrlOf domain :: v)

theorem validateGo_visited (site : Site) (domain : String) (st : TechState)
    (v : List String) (h : sitemapUrlOf domain ∈ v) :
    (validateSitemapGo site domain st v).1 = st ∧
    ((validateSitemapGo site domain st v).2 : List String) = v := by
  rw [validateSitemapGo.eq_def]
  simp [h]

theorem validateGo_step (site : Site) (domain : String) (st : TechState)
    (v : List String) (hnv : sitemapUrlOf domain ∉ v) :
    (validateSitemapGo site domain st v).1 = (validateStep site domain st v).1 ∧
    ((validateSitemapGo site domain st v).2 : List String) =
      (validateStep site domain st v).2 := by
  rw [validateSitemapGo.eq_def, dif_neg hnv]
  split
  next e heq =>
    unfold validateStep
    rw [heq]
    exact ⟨rfl, rfl⟩
  next status doc heq =>
    simp only [validateStep, heq]
    by_cases h200 : status = 200
    · subst h200
      simp only [ne_eq, not_true_eq_false, if_false, ite_false]
      cases doc with
      | parseError e => exact ⟨rfl, rfl⟩
      | index locs => exact ⟨rfl, rfl⟩
      | urlset entries =>
        cases hve : validateEntries site entries st with
        | ok st' => simp [hve]
        | error x =>
          obtain ⟨e, st'⟩ := x
          cases e <;> simp [hve, PyExn.msg]
    · have hne : status ≠ 200 := h200
      rw [if_pos hne, if_pos hne]
      exact ⟨rfl, rfl⟩

theorem validate_sitemap_visited (site : Site) (domain : String) (st : TechState)
    (v : List String) (h : sitemapUrlOf domain ∈ v) :
    validate_sitemap site domain st v = (st, v) := by
  unfold validate_sitemap
  have hv := validateGo_visited site domain st v h
  exact Prod.ext hv.1 hv.2

theorem validate_sitemap_eq_step (site : Site) (domain : String) (st : TechState)
    (v : List String) (hnv : sitemapUrlOf domain ∉ v) :
    validate_sitemap site domain st v = validateStep site domain st v := by
  unfold validate_sitemap
  have hv := validateGo_step site domain st v hnv
  exact Prod.ext hv.1 hv.2

/-- A world with no sitemaps at all: fetching any domain's sitemap raises a
connection error. -/
def bareSite : Site :=
  ⟨fun _ => "", fun _ => "https", fun _ => none, [], none, [],
   fun _ _ => .raised "offline", fun _ => .ok (), fun _ => .error (.valueError "v"),
   fun _ => none⟩

/-- Two domains whose sitemap indexes reference each other: `a.com`'s index
points at `b.com`'s sitemap and vice versa. -/
def cycleSite : Site :=
  ⟨fun u => if u = "https://b.com/sitemap.xml" then "b.com"
    else if u = "https://a.com/sitemap.xml" then "a.com" else "",
   fun _ => "https", fun _ => none, [], none,
   [("a.com", .ok 200 (.index ["https://b.com/sitemap.xml"])),
    ("b.com", .ok 200 (.index ["https://a.com/sitemap.xml"]))],
   fun _ _ => .raised "offline", fun _ => .ok (), fun _ => .error (.valueError "v"),
   fun _ => none⟩

/-- Claim C9: a previously visited sitemap URL is a no-op (so the recursion
can never revisit a sitemap), and on a cyclic two-element sitemap tree the
validation terminates with both sitemap URLs visited and no issue
recorded. -/
theorem claim_C9_termination :
    (∀ (site : Site) (domain : String) (st : TechState) (v : List String),
      sitemapUrlOf domain ∈ v → validate_sitemap site domain st v = (st, v)) ∧
    validate_sitemap cycleSite "a.com" TechState.init [] =
      (TechState.init, ["https://b.com/sitemap.xml", "https://a.com/sitemap.xml"]) := by
  constructor
  · exact validate_sitemap_visited
  · have hnetA : cycleSite.netlocOf "https://a.com/sitemap.xml" = "a.com" := by decide
    have hnetB : cycleSite.netlocOf "https://b.com/sitemap.xml" = "b.com" := by decide
    have hsuA : sitemapUrlOf "a.com" = "https://a.com/sitemap.xml" := by decide
    have hsuB : sitemapUrlOf "b.com" = "https://b.com/sitemap.xml" := by decide
    have hfA : fetchSitemap cycleSite "a.com" =
        .ok 200 (.index ["https://b.com/sitemap.xml"]) := by decide
    have hfB : fetchSitemap cycleSite "b.com" =
        .ok 200 (.index ["https://a.com/sitemap.xml"]) := by decide
    have h1 := validateGo_visited cycleSite "a.com" TechState.init
      ["https://b.com/sitemap.xml", "https://a.com/sitemap.xml"] (by decide)
    have h2 : (validateIndexLoop cycleSite [] TechState.init
        ["https://b.com/sitemap.xml", "https://a.com/sitemap.xml"]).1 = TechState.init ∧
        ((validateIndexLoop cycleSite [] TechState.init
          ["https://b.com/sitemap.xml", "https://a.com/sitemap.xml"]).2 : List String) =
          ["https://b.com/sitemap.xml", "https://a.com/sitemap.xml"] := by
      rw [validateIndexLoop.eq_def]
      exact ⟨rfl, rfl⟩
    have h1' : (validateSitemapGo cycleSite (cycleSite.netlocOf "https://a.com/sitemap.xml")
        TechState.init ["https://b.com/sitemap.xml", "https://a.com/sitemap.xml"]).1 =
          TechState.init ∧
        ((validateSitemapGo cycleSite (cycleSite.netlocOf "https://a.com/sitemap.xml")
          TechState.init ["https://b.com/sitemap.xml", "https://a.com/sitemap.xml"]).2 :
            List String) =
          ["https://b.com/sitemap.xml", "https://a.com/sitemap.xml"] := by
      rw [hnetA]
      exact h1
    have h3 : (validateIndexLoop cycleSite ["https://a.com/sitemap.xml"] TechState.init
        ["https://b.com/sitemap.xml", "https://a.com/sitemap.xml"]).1 = TechState.init ∧
        ((validateIndexLoop cycleSite ["https://a.com/sitemap.xml"] TechState.init
          ["https://b.com/sitemap.xml", "https://a.com/sitemap.xml"]).2 : List String) =
          ["https://b.com/sitemap.xml", "https://a.com/sitemap.xml"] := by
      rw [validateIndexLoop.eq_def]
      simp only [hnetA, hsuA]
      rw [if_pos ⟨by decide, by decide⟩]
      refine ⟨?_, ?_⟩
      · simp only [h1.1]
        rw [h1'.2]
        exact h2.1
      · simp only [h1.1]
        rw [h1'.2]
        exact h2.2
    have h4 : validateStep cycleSite "b.com" TechState.init ["https://a.com/sitemap.xml"] =
        (TechState.init, ["https://b.com/sitemap.xml", "https://a.com/sitemap.xml"]) := by
      simp only [validateStep, hfB, hsuB]
      simp only [ne_eq, not_true_eq_false, if_false, ite_false]
      rw [Prod.ext_iff]
      exact ⟨h3.1, h3.2⟩
    have h5 := validateGo_step cycleSite "b.com" TechState.init
      ["https://a.com/sitemap.xml"] (by decide)
    have h5' : (validateSitemapGo cycleSite (cycleSite.netlocOf "https://b.com/sitemap.xml")
        TechState.init ["https://a.com/sitemap.xml"]).1 = TechState.init ∧
        ((validateSitemapGo cycleSite (cycleSite.netlocOf "https://b.com/sitemap.xml")
          TechState.init ["https://a.com/sitemap.xml"]).2 : List String) =
          ["https://b.com/sitemap.xml", "https://a.com/sitemap.xml"] := by
      rw [hnetB]
      exact ⟨h5.1.trans (by rw [h4]), h5.2.trans (by rw [h4])⟩
    have h7 : (validateIndexLoop cycleSite ["https://b.com/sitemap.xml"] TechState.init
        ["https://a.com/sitemap.xml"]).1 = TechState.init ∧
        ((validateIndexLoop cycleSite ["https://b.com/sitemap.xml"] TechState.init
          ["https://a.com/sitemap.xml"]).2 : List String) =
          ["https://b.com/sitemap.xml", "https://a.com/sitemap.xml"] := by
      rw [validateIndexLoop.eq_def]
      simp only [hnetB, hsuB]
      rw [if_pos ⟨by decide, by decide⟩]
      refine ⟨?_, ?_⟩
      · simp only [h5.1, h4]
        rw [h5'.2]
        exact h2.1
      · simp only [h5.1, h4]
        rw [h5'.2]
        exact h2.2
    rw [validate_sitemap_eq_step _ _ _ _ (by decide)]
    simp only [validateStep, hfA, hsuA]
    simp only [ne_eq, not_true_eq_false, if_false, ite_false]
    rw [Prod.ext_iff]
    exact ⟨h7.1, h7.2⟩

/-- Claim C9, witness: the no-op clause at a concrete visited sitemap. -/
theorem claim_C9_witness :
    validate_sitemap cycleSite "a.com" TechState.init ["https://a.com/sitemap.xml"] =
      (TechState.init, ["https://a.com/sitemap.xml"]) :=
  claim_C9_termination.1 cycleSite "a.com" TechState.init
    ["https://a.com/sitemap.xml"] (by decide)

/-- Claim C10: `validate_sitemap` returns normally for every failure mode,
each recorded as one sitemap-issue string: a raised fetch, a non-200 status,
unparsable XML, an invalid `lastmod`, an invalid or unparsable `priority`,
and an unexpected exception during entry processing (caught by the final
`except Exception` handler). -/
theorem claim_C10_error_handling :
    ∀ (site : Site) (domain : String) (st : TechState) (v : List String),
    sitemapUrlOf domain ∉ v →
    (∀ m, fetchSitemap site domain = .raised m →
      validate_sitemap site domain st v =
        (addSitemapIssue st ("Error fetching sitemap: " ++ m),
         sitemapUrlOf domain :: v)) ∧
    (∀ status doc, fetchSitemap site domain = .ok status doc → status ≠ 200 →
      validate_sitemap site domain st v =
        (addSitemapIssue st ("Sitemap not found at " ++ sitemapUrlOf domain),
         sitemapUrlOf domain :: v)) ∧
    (∀ m, fetchSitemap site domain = .ok 200 (.parseError m) →
      validate_sitemap site domain st v =
        (addSitemapIssue st ("Invalid XML in sitemap: " ++ m),
         sitemapUrlOf domain :: v)) ∧
    (∀ s, fetchSitemap site domain = .ok 200 (.urlset [⟨none, some s, none⟩]) →
      (∀ m, site.iso_parse s = .error (.valueError m) →
        validate_sitemap site domain st v =
          (addSitemapIssue st ("Invalid lastmod format in sitemap: " ++ s),
           sitemapUrlOf domain :: v)) ∧
      (∀ m, site.iso_parse s = .error (.otherError m) →
        validate_sitemap site domain st v =
          (addSitemapIssue st ("Unexpected error processing sitemap: " ++ m),
           sitemapUrlOf domain :: v))) ∧
    (∀ s, fetchSitemap site domain = .ok 200 (.urlset [⟨none, none, some s⟩]) →
      (∀ p, site.float_parse s = .ok p → ¬ (0 ≤ p ∧ p ≤ 1) →
        validate_sitemap site domain st v =
          (addSitemapIssue st ("Invalid priority value in sitemap: " ++ s),
           sitemapUrlOf domain :: v)) ∧
      (∀ m, site.float_parse s = .error (.valueError m) →
        validate_sitemap site domain st v =
          (addSitemapIssue st ("Invalid priority format in sitemap: " ++ s),
           sitemapUrlOf domain :: v))) := by
  intro site domain st v hnv
  rw [validate_sitemap_eq_step site domain st v hnv]
  refine ⟨?_, ?_, ?_, ?_, ?_⟩
  · intro m hf
    simp [validateStep, hf]
  · intro status doc hf hs
    simp [validateStep, hf, hs]
  · intro m hf
    simp [validateStep, hf]
  · intro s hf
    constructor
    · intro m hiso
      simp [validateStep, hf, validateEntries, validateEntry, entryLoc,
        entryLastmod, entryPriority, hiso]
    · intro m hiso
      simp [validateStep, hf, validateEntries, validateEntry, entryLoc,
        entryLastmod, entryPriority, hiso, PyExn.msg]
  · intro s hf
    constructor
    · intro p hfl hrange
      simp [validateStep, hf, validateEntries, validateEntry, entryLoc,
        entryLastmod, entryPriority, hfl, hrange]
    · intro m hfl
      simp [validateStep, hf, validateEntries, validateEntry, entryLoc,
        entryLastmod, entryPriority, hfl]

/-- Claim C10, witness: the network-failure clause at a concrete world with
no sitemap. -/
theorem claim_C10_witness :
    validate_sitemap bareSite "x.com" TechState.init [] =
      (addSitemapIssue TechState.init
        ("Error fetching sitemap: " ++ "connection error"),
       sitemapUrlOf "x.com" :: []) :=
  (claim_C10_error_handling bareSite "x.com" TechState.init [] (by decide)).1
    "connection error" rfl

/-! ## Character-level string helpers

Python's `str` methods used by the crawler are re-implemented on `String.data`
so that every definition reduces inside the kernel (`.strip()`, `.lower()`,
`.startswith`, `.endswith`, `in`, `.split`). -/

def pyIsSpace (c : Char) : Bool :=
  c = ' ' ∨ c = '\t' ∨ c = '\n' ∨ c = '\r'

/-- Python `s.strip()`. -/
def pyStrip (s : String) : String :=
  String.mk (((s.data.dropWhile pyIsSpace).reverse.dropWhile pyIsSpace).reverse)

/-- Python `s.lower()`. -/
def pyLower (s : String) : String := String.mk (s.data.map Char.toLower)

/-- Python `s.startswith(p)`. -/
def pyStartsWith (s p : String) : Bool := p.data.isPrefixOf s.data

/-- Python `s.endswith(p)`. -/
def pyEndsWith (s p : String) : Bool := p.data.isSuffixOf s.data

/-- Python `pat in s` for lists of characters. -/
def isSubList (pat : List Char) : List Char → Bool
  | [] => pat.isPrefixOf []
  | c :: t => pat.isPrefixOf (c :: t) || isSubList pat t

/-- Python `pat in s` on strings. -/
def hasSubstr (s pat : String) : Bool := isSubList pat.data s.data

/-- Python `s.split(sep)` on character lists. -/
def chSplit (sep : Char) : List Char → List (List Char)
  | [] => [[]]
  | c :: t =>
    let r := chSplit sep t
    if c = sep then [] :: r
    else
      match r with
      | [] => [[c]]
      | h :: t2 => (c :: h) :: t2

/-- Python `s.split('\n')`. -/
def splitLines (s : String) : List String := (chSplit '\n' s.data).map String.mk

/-- Python `line.split(':', 1)[1]`: everything after the first colon. -/
def afterColon (line : String) : String :=
  String.mk ((line.data.dropWhile (fun c => c ≠ ':')).drop 1)

/-- Python `s.split("/")[-1]`. -/
def lastSegment (s : String) : String :=
  String.mk ((chSplit '/' s.data).getLastD [])

/-! ## Structured-data analysis (`SiteCrawler.analyze_structured_data`) -/

/-- The fixed keys of `self.structured_data["schema_types"]`
(src/site_analyzer.py:174-185), without the `"other"` bucket. -/
def knownSchemaTypes : List String :=
  ["Organization", "LocalBusiness", "MedicalBusiness", "HealthAndBeautyBusiness",
   "Service", "Article", "BlogPosting", "WebPage", "FAQPage", "BreadcrumbList"]

/-- Per-encoding-style counters of `implementation_methods`. -/
structure MethodStats where
  count : Nat
  valid : List String
  invalid : List String
  errors : List String
deriving DecidableEq, Repr

/-- The crawl-wide `self.structured_data` tracking structure
(src/site_analyzer.py:172-212). -/
structure StructState where
  schema_types : List (String × List String)
  json_ld : MethodStats
  microdata : MethodStats
  rdfa : MethodStats
  total_pages : Nat
  pages_with_schema : Nat
  pages_without_schema : List String
deriving DecidableEq, Repr

def StructState.init : StructState :=
  { schema_types := knownSchemaTypes.map (fun t => (t, [])) ++ [("other", [])],
    json_ld := ⟨0, [], [], []⟩, microdata := ⟨0, [], [], []⟩, rdfa := ⟨0, [], [], []⟩,
    total_pages := 0, pages_with_schema := 0, pages_without_schema := [] }

/-- Classify one schema type name: appended under its own key when it is a
key of the `schema_types` dict, else under `"other"` (src:695-698). -/
def addSchemaUrl (m : List (String × List String)) (t url : String) :
    List (String × List String) :=
  if hasKey m t then appendAt m t url else appendAt m "other" url

/-- The per-page findings dict built by `analyze_structured_data`
(src/site_analyzer.py:672-678). -/
structure SDFindings where
  schema_types : List String
  implementation_method : Option String
  validation_status : String
  schema_content : Option JVal
  errors : List String

def SDFindings.init : SDFindings := ⟨[], none, "valid", none, []⟩

/-- The inner loop over the items of a JSON-LD array (src:693-699).  Note
this code is unreachable for a top-level array, because line 689 evaluates
`schema.get("@type", "")` before the `isinstance(schema, list)` check and a
Python list has no `.get`. -/
def jarrLoop (url : String) : List JVal → StructState → SDFindings →
    Except (PyExn × StructState) (StructState × SDFindings)
  | [], ss, f => .ok (ss, f)
  | item :: rest, ss, f =>
    match item.getType with
    | .error ex => .error (ex, ss)
    | .ok ty =>
      let ss := { ss with schema_types := addSchemaUrl ss.schema_types ty url }
      let f := { f with schema_types := f.schema_types ++ [ty] }
      jarrLoop url rest ss f

/-- The loop over the page's JSON-LD scripts (src/site_analyzer.py:686-714):
the per-script `try` catches only `json.JSONDecodeError`; the
`AttributeError` raised by `schema.get("@type", "")` on a non-dict value
propagates, carrying the state mutated so far. -/
def jsonLdLoop (url : String) : List (Except String JVal) → StructState → SDFindings →
    Except (PyExn × StructState) (StructState × SDFindings)
  | [], ss, f => .ok (ss, f)
  | script :: rest, ss, f =>
    match script with
    | .error e =>
      let jl := { ss.json_ld with invalid := ss.json_ld.invalid ++ [url],
                                  errors := ss.json_ld.errors ++ [e] }
      let ss := { ss with json_ld := jl }
      let f := { f with validation_status := "invalid",
                        errors := f.errors ++ ["Invalid JSON-LD: " ++ e] }
      jsonLdLoop url rest ss f
    | .ok schema =>
      match schema.getType with
      | .error ex => .error (ex, ss)
      | .ok schema_type =>
        match schema with
        | .jarr items =>
          match jarrLoop url items ss f with
          | .error x => .error x
          | .ok (ss1, f1) =>
            let f1 := { f1 with schema_content := some schema }
            let ss1 := { ss1 with json_ld := { ss1.json_ld with
              valid := ss1.json_ld.valid ++ [url] } }
            jsonLdLoop url rest ss1 f1
        | _ =>
          let ss := { ss with schema_types := addSchemaUrl ss.schema_types schema_type url }
          let f := { f with schema_types := f.schema_types ++ [schema_type],
                            schema_content := some schema }
          let ss := { ss with json_ld := { ss.json_ld with
            valid := ss.json_ld.valid ++ [url] } }
          jsonLdLoop url rest ss f

/-- The loop over microdata `itemtype` attributes (src:723-736); its
`try`/`except` cannot fire in this model (attribute access is total). -/
def microdataLoop (url : String) : List String → StructState → SDFindings →
    StructState × SDFindings
  | [], ss, f => (ss, f)
  | item :: rest, ss, f =>
    let ty := lastSegment item
    let ss := { ss with schema_types := addSchemaUrl ss.schema_types ty url }
    let f := { f with schema_types := f.schema_types ++ [ty] }
    let ss := { ss with microdata := { ss.microdata with
      valid := ss.microdata.valid ++ [url] } }
    microdataLoop url rest ss f

/-- The loop over RDFa `vocab` attributes (src:745-758). -/
def rdfaLoop (url : String) : List String → StructState → SDFindings →
    StructState × SDFindings
  | [], ss, f => (ss, f)
  | item :: rest, ss, f =>
    let ty := lastSegment item
    let ss := { ss with schema_types := addSchemaUrl ss.schema_types ty url }
    let f := { f with schema_types := f.schema_types ++ [ty] }
    let ss := { ss with rdfa := { ss.rdfa with valid := ss.rdfa.valid ++ [url] } }
    rdfaLoop url rest ss f

/-- `SiteCrawler.analyze_structured_data` (src/site_analyzer.py:670-767). -/
def analyze_structured_data (doc : PageDoc) (url : String) (ss : StructState) :
    Except (PyExn × StructState) (StructState × SDFindings) :=
  let f := SDFindings.init
  let step1 : Except (PyExn × StructState) (StructState × SDFindings) :=
    if doc.json_ld.isEmpty then .ok (ss, f)
    else
      let f := { f with implementation_method := some "json_ld" }
      let ss := { ss with json_ld := { ss.json_ld with count := ss.json_ld.count + 1 } }
      jsonLdLoop url doc.json_ld ss f
  match step1 with
  | .error x => .error x
  | .ok (ss, f) =>
    let p :=
      if f.implementation_method = none ∧ ¬ doc.microdata.isEmpty then
        let f := { f with implementation_method := some "microdata" }
        let ss := { ss with microdata := { ss.microdata with
          count := ss.microdata.count + 1 } }
        microdataLoop url doc.microdata ss f
      else (ss, f)
    let p :=
      if p.2.implementation_method = none ∧ ¬ doc.rdfa.isEmpty then
        let f := { p.2 with implementation_method := some "rdfa" }
        let ss := { p.1 with rdfa := { p.1.rdfa with count := p.1.rdfa.count + 1 } }
        rdfaLoop url doc.rdfa ss f
      else p
    let ss := { p.1 with total_pages := p.1.total_pages + 1 }
    let ss :=
      if ¬ p.2.schema_types.isEmpty then
        { ss with pages_with_schema := ss.pages_with_schema + 1 }
      else { ss with pages_without_schema := ss.pages_without_schema ++ [url] }
    .ok (ss, p.2)

/-! ### Claim C4: JSON-LD arrays -/

/-- A page whose only JSON-LD script parses to the array
`[{"@type": "Organization"}, {"@type": "Article"}]`. -/
def arrayDoc : PageDoc :=
  { PageDoc.empty with
    json_ld := [.ok (.jarr [.jobj (some "Organization"), .jobj (some "Article")])] }

/-- Claim C4, what the code actually does on a JSON-LD array: line 689
evaluates `schema.get("@type", "")` before the `isinstance(schema, list)`
check, so a parsed array raises `AttributeError` (not caught by the
`except json.JSONDecodeError` handler).  The call fails after having bumped
only the `json_ld` count: no SchemaCatalog entry is recorded for
Organization or Article, and the page-coverage counters are never reached —
the intended array branch (src:692-699) is dead code for top-level
arrays. -/
theorem claim_C4_array_raises :
    analyze_structured_data arrayDoc "https://a.site/" StructState.init =
      .error (.attributeError "list object has no attribute get",
        { StructState.init with json_ld := ⟨1, [], [], []⟩ }) ∧
    getSet ({ StructState.init with json_ld := ⟨(1 : Nat), [], [], []⟩ } :
      StructState).schema_types "Organization" = [] ∧
    getSet ({ StructState.init with json_ld := ⟨(1 : Nat), [], [], []⟩ } :
      StructState).schema_types "Article" = [] ∧
    ({ StructState.init with json_ld := ⟨(1 : Nat), [], [], []⟩ } :
      StructState).pages_with_schema = 0 := by
  refine ⟨rfl, ?_, ?_, rfl⟩
  · decide
  · decide

/-! ## Crawl-wide state (`SiteCrawler.__init__`, src/site_analyzer.py:156-215) -/

/-- The link-graph slice of the crawler state: `self.internal_links`,
`self.inbound_links`, `self.page_depths`. -/
structure LinkState where
  internal_links : List (String × List String)
  inbound_links : List (String × List String)
  page_depths : List (String × Nat)
deriving DecidableEq, Repr

def LinkState.init : LinkState := ⟨[], [], []⟩

/-- All mutable fields of a `SiteCrawler` instance that the analysis methods
touch.  `robots_txt_content` is `none` until `get_robots_txt` caches a
value (the fetched text, or `""` after a non-200 or an exception). -/
structure CrawlState where
  title_tracking : List (String × List String)
  meta_desc_tracking : List (String × List String)
  content_tracking : List (String × List String)
  crawl_issues : List (String × Nat)
  canonical_issues : List (String × Nat)
  graph : LinkState
  orphan_pages : List String
  sdata : StructState
  robots_txt_content : Option String
  tech : TechState
deriving DecidableEq, Repr

def CrawlState.init : CrawlState :=
  ⟨[], [], [], [], [], LinkState.init, [], StructState.init, none, TechState.init⟩

/-! ## Indexability (`SiteCrawler.check_indexability`, src:400-447) -/

/-- The loop of `is_allowed_by_robots` (src:281-286): a per-line
`Disallow:` suffix match. -/
def robotsAllowLines (url : String) : List String → Bool
  | [] => true
  | line :: rest =>
    if pyStartsWith (pyLower line) "disallow:" then
      let path := pyStrip (afterColon line)
      if path ≠ "" ∧ pyEndsWith url path then false
      else robotsAllowLines url rest
    else robotsAllowLines url rest

/-- `SiteCrawler.is_allowed_by_robots` (src:275-286): `None` or `""` content
means everything is allowed. -/
def is_allowed_by_robots (robots : Option String) (url : String) : Bool :=
  match robots with
  | none => true
  | some c => if c = "" then true else robotsAllowLines url (splitLines c)

/-- The verdict dict built by `check_indexability` (src:402-409). -/
structure Indexability where
  robots_txt_allowed : Bool
  meta_robots : String
  canonical : String
  canonical_self_referencing : Bool
  noindex_reason : Option String
  canonical_issues : List String
deriving DecidableEq, Repr

/-- The meta-robots step of `check_indexability` (src:412-417). -/
def metaRobotsCheck (doc : PageDoc) (st : CrawlState) (idx : Indexability) :
    CrawlState × Indexability :=
  match doc.meta_robots with
  | some c =>
    if c ≠ "" then
      let mr := pyLower c
      let idx := { idx with meta_robots := mr }
      if hasSubstr mr "noindex" then
        ({ st with crawl_issues := incCount st.crawl_issues "non_indexable_urls" },
         { idx with noindex_reason := some "meta_robots_noindex" })
      else (st, idx)
    else (st, idx)
  | none => (st, idx)

/-- The canonical-link step of `check_indexability` (src:419-445): the three
issue checks in source order, then the self-reference check whose
`points_to_different_url` issue is appended only when the page's issue list
is still empty. -/
def canonicalChecks (site : Site) (doc : PageDoc) (url : String)
    (st : CrawlState) (idx : Indexability) : CrawlState × Indexability :=
  match doc.canonical with
  | some h =>
    if h ≠ "" then
      let idx := { idx with canonical := h }
      let p1 :=
        if ¬ (pyStartsWith h "http://" = true ∨ pyStartsWith h "https://" = true) then
          let stR := { st with canonical_issues := incCount st.canonical_issues "relative_url" }
          let idxR := { idx with canonical_issues := idx.canonical_issues ++ ["relative_url"] }
          (stR, idxR)
        else (st, idx)
      let cd := site.netlocOf h
      let p2 :=
        if cd ≠ "" ∧ cd ≠ site.netlocOf url then
          let ciD := incCount p1.1.canonical_issues "points_to_different_domain"
          let stD := { p1.1 with canonical_issues := ciD }
          let liD := p1.2.canonical_issues ++ ["points_to_different_domain"]
          let idxD := { p1.2 with canonical_issues := liD }
          (stD, idxD)
        else p1
      if h ≠ url then
        let idx2 := { p2.2 with canonical_self_referencing := false }
        if idx2.canonical_issues.isEmpty then
          let ciU := incCount p2.1.canonical_issues "points_to_different_url"
          let stU := { p2.1 with canonical_issues := ciU }
          let liU := idx2.canonical_issues ++ ["points_to_different_url"]
          let idxU := { idx2 with canonical_issues := liU }
          (stU, idxU)
        else (p2.1, idx2)
      else p2
    else
      ({ st with canonical_issues := incCount st.canonical_issues "missing_canonical" },
       { idx with canonical_issues := idx.canonical_issues ++ ["missing_canonical"] })
  | none =>
    ({ st with canonical_issues := incCount st.canonical_issues "missing_canonical" },
     { idx with canonical_issues := idx.canonical_issues ++ ["missing_canonical"] })

/-- `SiteCrawler.check_indexability` (src/site_analyzer.py:400-447). -/
def check_indexability (site : Site) (doc : PageDoc) (url : String)
    (st : CrawlState) : CrawlState × Indexability :=
  let idx : Indexability :=
    ⟨is_allowed_by_robots st.robots_txt_content url, "index,follow", url, true, none, []⟩
  let p := metaRobotsCheck doc st idx
  canonicalChecks site doc url p.1 p.2

/-! ## Metadata extraction (`SiteCrawler.extract_metadata`, src:324-398) -/

/-- The metadata dict of one page. -/
structure Metadata where
  title_tag : String
  meta_description : String
  h_tags : List (String × List String)
  images : List (String × String)
  structured_data : SDFindings
  flesch_kincaid_grade : Option Rat

/-- The title tracking of `extract_metadata` (src:335-346). -/
def trackTitle (doc : PageDoc) (url : String) (st : CrawlState) :
    CrawlState × String :=
  match doc.title with
  | some t0 =>
    let t := pyStrip t0
    match alookup st.title_tracking t with
    | some l =>
      ({ st with crawl_issues := incCount st.crawl_issues "duplicate_titles",
                 title_tracking := setVal st.title_tracking t (l ++ [url]) }, t)
    | none => ({ st with title_tracking := setVal st.title_tracking t [url] }, t)
  | none =>
    ({ st with crawl_issues := incCount st.crawl_issues "urls_missing_title_tag" }, "")

/-- The meta-description tracking (src:348-360); empty content counts as
missing, by Python truthiness. -/
def trackDesc (doc : PageDoc) (url : String) (st : CrawlState) :
    CrawlState × String :=
  match doc.meta_description with
  | some c =>
    if c ≠ "" then
      let d := pyStrip c
      match alookup st.meta_desc_tracking d with
      | some l =>
        ({ st with
            crawl_issues := incCount st.crawl_issues "duplicate_meta_descriptions",
            meta_desc_tracking := setVal st.meta_desc_tracking d (l ++ [url]) }, d)
      | none =>
        ({ st with meta_desc_tracking := setVal st.meta_desc_tracking d [url] }, d)
    else
      ({ st with
          crawl_issues := incCount st.crawl_issues "urls_missing_meta_description" }, "")
  | none =>
    ({ st with
        crawl_issues := incCount st.crawl_issues "urls_missing_meta_description" }, "")

/-- The `h_tags` mapping of the metadata dict (src:363-365). -/
def hTagsOf (doc : PageDoc) : List (String × List String) :=
  (List.range 6).map (fun i => ("h" ++ toString (i + 1), doc.headings (i + 1)))

/-- The missing-h1 counter (src:367-368). -/
def trackH1 (doc : PageDoc) (st : CrawlState) : CrawlState :=
  if doc.headings 1 = [] then
    { st with crawl_issues := incCount st.crawl_issues "urls_missing_h1" }
  else st

/-- The image loop (src:371-378): every image without alt text counts. -/
def imagesLoop : List (String × String) → CrawlState → CrawlState
  | [], st => st
  | (_, alt) :: rest, st =>
    let st :=
      if alt = "" then
        { st with crawl_issues := incCount st.crawl_issues "images_missing_alt_text" }
      else st
    imagesLoop rest st

/-- The duplicate-content tracking and readability scoring (src:380-396).
Python hashes the text (`hash(content_text)`); hashing is modelled as
injective, so the tracker is keyed by the text itself. -/
def trackContent (site : Site) (doc : PageDoc) (url : String) (st : CrawlState) :
    CrawlState × Option Rat :=
  match doc.main_content with
  | none => (st, none)
  | some text =>
    let st :=
      match alookup st.content_tracking text with
      | some l =>
        { st with crawl_issues := incCount st.crawl_issues "duplicate_content",
                  content_tracking := setVal st.content_tracking text (l ++ [url]) }
      | none => { st with content_tracking := setVal st.content_tracking text [url] }
    (st, site.fk_grade text)

/-- `SiteCrawler.extract_metadata` (src/site_analyzer.py:324-398).  The
metadata dict literal evaluates `analyze_structured_data` first (line 331),
so an exception there propagates before any tracking happens. -/
def extract_metadata (site : Site) (doc : PageDoc) (url : String)
    (st : CrawlState) : Except (PyExn × CrawlState) (CrawlState × Metadata) :=
  match analyze_structured_data doc url st.sdata with
  | .error (ex, ss) => .error (ex, { st with sdata := ss })
  | .ok (ss, sd) =>
    let st := { st with sdata := ss }
    let pt := trackTitle doc url st
    let pd := trackDesc doc url pt.1
    let st := trackH1 doc pd.1
    let st := imagesLoop doc.images st
    let pc := trackContent site doc url st
    .ok (pc.1,
      { title_tag := pt.2, meta_description := pd.2, h_tags := hTagsOf doc,
        images := doc.images, structured_data := sd, flesch_kincaid_grade := pc.2 })

/-! ### Claim C7: first-match suppression of `points_to_different_url` -/

theorem metaRobots_ci (doc : PageDoc) (st : CrawlState) (idx : Indexability) :
    (metaRobotsCheck doc st idx).2.canonical_issues = idx.canonical_issues := by
  unfold metaRobotsCheck
  rcases doc.meta_robots with _ | c
  · rfl
  · dsimp only
    split_ifs <;> rfl

theorem canonicalChecks_pdu (site : Site) (doc : PageDoc) (url : String)
    (st : CrawlState) (idx : Indexability) (h0 : idx.canonical_issues = []) :
    "points_to_different_url" ∈ (canonicalChecks site doc url st idx).2.canonical_issues →
    (canonicalChecks site doc url st idx).2.canonical_issues =
      ["points_to_different_url"] := by
  unfold canonicalChecks
  rcases doc.canonical with _ | h
  · intro hmem
    simp [h0] at hmem
  · intro hmem
    simp only [h0] at hmem ⊢
    split_ifs at hmem ⊢ <;> simp_all

/-- A tiny world for the canonical scenarios: every URL on `x.com` except
the relative path `/other-page`, whose netloc is empty. -/
def siteX : Site :=
  ⟨fun u => if u = "/other-page" then "" else "x.com",
   fun _ => "https", fun _ => none, [], none, [],
   fun _ _ => .raised "offline", fun _ => .ok (), fun _ => .error (.valueError "v"),
   fun _ => none⟩

/-- Page B of the claim: its only canonical tag is the relative URL
`/other-page`. -/
def relCanonDoc : PageDoc := { PageDoc.empty with canonical := some "/other-page" }

/-- A page whose canonical is an absolute same-domain URL different from the
page URL — the one situation in which `points_to_different_url` fires. -/
def absCanonDoc : PageDoc :=
  { PageDoc.empty with canonical := some "https://x.com/other" }

/-- Claim C7: `points_to_different_url` is recorded for a page only when no
other canonical issue already fired — whenever it is present, it is the only
canonical issue of the page; and in the claim's scenario (page B whose only
canonical tag is the relative `/other-page`) the issue list is exactly
`["relative_url"]`. -/
theorem claim_C7_pdu_suppression :
    (∀ (site : Site) (doc : PageDoc) (url : String) (st : CrawlState),
      "points_to_different_url" ∈ (check_indexability site doc url st).2.canonical_issues →
      (check_indexability site doc url st).2.canonical_issues =
        ["points_to_different_url"]) ∧
    (check_indexability siteX relCanonDoc "https://x.com/b"
      CrawlState.init).2.canonical_issues = ["relative_url"] := by
  constructor
  · intro site doc url st hmem
    unfold check_indexability at hmem ⊢
    exact canonicalChecks_pdu site doc url _ _ (metaRobots_ci doc st _) hmem
  · decide

/-- Claim C7, witness: at a same-domain non-self canonical the issue fires
and is indeed the only one. -/
theorem claim_C7_witness :
    (check_indexability siteX absCanonDoc "https://x.com/b"
      CrawlState.init).2.canonical_issues = ["points_to_different_url"] :=
  claim_C7_pdu_suppression.1 siteX absCanonDoc "https://x.com/b" CrawlState.init
    (by decide)

/-! ### Claim C8: duplicate titles -/

theorem getCount_incCount_self (m : List (String × Nat)) (k : String) :
    getCount (incCount m k) k = getCount m k + 1 := by
  induction m with
  | nil => simp [incCount, getCount, alookup]
  | cons a t ih =>
    obtain ⟨b, n⟩ := a
    by_cases hb : b = k
    · subst hb; simp [incCount, getCount, alookup]
    · simp [incCount, hb, getCount, alookup] at ih ⊢
      exact ih

theorem getCount_incCount_other (m : List (String × Nat)) (k k' : String)
    (h : k' ≠ k) : getCount (incCount m k') k = getCount m k := by
  induction m with
  | nil => simp [incCount, getCount, alookup, h]
  | cons a t ih =>
    obtain ⟨b, n⟩ := a
    by_cases hb : b = k'
    · subst hb
      simp [incCount, getCount, alookup, h]
    · by_cases hbk : b = k
      · subst hbk
        simp [incCount, getCount, alookup, hb]
      · simp [incCount, getCount, alookup, hb, hbk] at ih ⊢
        exact ih

theorem trackDesc_title_frame (doc : PageDoc) (url : String) (st : CrawlState) :
    (trackDesc doc url st).1.title_tracking = st.title_tracking ∧
    getCount (trackDesc doc url st).1.crawl_issues "duplicate_titles" =
      getCount st.crawl_issues "duplicate_titles" := by
  unfold trackDesc
  rcases doc.meta_description with _ | c
  · exact ⟨rfl, getCount_incCount_other _ _ _ (by decide)⟩
  · dsimp only
    split_ifs with hc
    · rcases alookup st.meta_desc_tracking (pyStrip c) with _ | l
      · exact ⟨rfl, rfl⟩
      · exact ⟨rfl, getCount_incCount_other _ _ _ (by decide)⟩
    · exact ⟨rfl, getCount_incCount_other _ _ _ (by decide)⟩

theorem trackH1_title_frame (doc : PageDoc) (st : CrawlState) :
    (trackH1 doc st).title_tracking = st.title_tracking ∧
    getCount (trackH1 doc st).crawl_issues "duplicate_titles" =
      getCount st.crawl_issues "duplicate_titles" := by
  unfold trackH1
  split_ifs
  · exact ⟨rfl, getCount_incCount_other _ _ _ (by decide)⟩
  · exact ⟨rfl, rfl⟩

theorem imagesLoop_title_frame (imgs : List (String × String)) (st : CrawlState) :
    (imagesLoop imgs st).title_tracking = st.title_tracking ∧
    getCount (imagesLoop imgs st).crawl_issues "duplicate_titles" =
      getCount st.crawl_issues "duplicate_titles" := by
  induction imgs generalizing st with
  | nil => exact ⟨rfl, rfl⟩
  | cons a rest ih =>
    obtain ⟨src, alt⟩ := a
    unfold imagesLoop
    dsimp only
    split_ifs with halt
    · obtain ⟨ih1, ih2⟩ := ih ({ st with
        crawl_issues := incCount st.crawl_issues "images_missing_alt_text" })
      refine ⟨ih1.trans rfl, ih2.trans ?_⟩
      exact getCount_incCount_other _ _ _ (by decide)
    · exact ih st

theorem trackContent_title_frame (site : Site) (doc : PageDoc) (url : String)
    (st : CrawlState) :
    (trackContent site doc url st).1.title_tracking = st.title_tracking ∧
    getCount (trackContent site doc url st).1.crawl_issues "duplicate_titles" =
      getCount st.crawl_issues "duplicate_titles" := by
  unfold trackContent
  rcases doc.main_content with _ | text
  · exact ⟨rfl, rfl⟩
  · dsimp only
    rcases alookup st.content_tracking text with _ | l
    · exact ⟨rfl, rfl⟩
    · exact ⟨rfl, getCount_incCount_other _ _ _ (by decide)⟩

/-- Claim C8: when `extract_metadata` sees a title that is an exact-string
duplicate of one already tracked, the `duplicate_titles` counter goes up by
exactly 1 and the page URL is appended to that title's tracker entry. -/
theorem claim_C8_duplicate_title (site : Site) (doc : PageDoc) (url : String)
    (st st' : CrawlState) (md : Metadata) (t : String) (l : List String)
    (hex : extract_metadata site doc url st = .ok (st', md))
    (ht : doc.title = some t)
    (hl : alookup st.title_tracking (pyStrip t) = some l) :
    getCount st'.crawl_issues "duplicate_titles" =
      getCount st.crawl_issues "duplicate_titles" + 1 ∧
    alookup st'.title_tracking (pyStrip t) = some (l ++ [url]) := by
  unfold extract_metadata at hex
  cases hads : analyze_structured_data doc url st.sdata with
  | error x =>
    obtain ⟨ex, ss⟩ := x
    rw [hads] at hex
    exact Except.noConfusion hex
  | ok p =>
    obtain ⟨ss, sd⟩ := p
    rw [hads] at hex
    simp only [Except.ok.injEq, Prod.mk.injEq] at hex
    obtain ⟨h1, _⟩ := hex
    subst h1
    have hT1 : (trackTitle doc url { st with sdata := ss }).1.title_tracking =
        setVal st.title_tracking (pyStrip t) (l ++ [url]) := by
      unfold trackTitle
      rw [ht]
      simp only [hl]
    have hT2 : getCount (trackTitle doc url { st with sdata := ss }).1.crawl_issues
        "duplicate_titles" = getCount st.crawl_issues "duplicate_titles" + 1 := by
      unfold trackTitle
      rw [ht]
      simp only [hl]
      exact getCount_incCount_self _ _
    have hD := trackDesc_title_frame doc url (trackTitle doc url { st with sdata := ss }).1
    have hH := trackH1_title_frame doc (trackDesc doc url
      (trackTitle doc url { st with sdata := ss }).1).1
    have hI := imagesLoop_title_frame doc.images (trackH1 doc (trackDesc doc url
      (trackTitle doc url { st with sdata := ss }).1).1)
    have hC := trackContent_title_frame site doc url (imagesLoop doc.images
      (trackH1 doc (trackDesc doc url
        (trackTitle doc url { st with sdata := ss }).1).1))
    constructor
    · rw [hC.2, hI.2, hH.2, hD.2, hT2]
    · rw [hC.1, hI.1, hH.1, hD.1, hT1]
      exact alookup_setVal_self _ _ _

/-- A crawl state that already tracks the title `Home` at one URL, and a
page whose title is again `Home`. -/
def st8 : CrawlState :=
  { CrawlState.init with title_tracking := [("Home", ["https://x.com/a"])] }

def doc8 : PageDoc := { PageDoc.empty with title := some "Home" }

/-- The concrete result of the duplicate-title extraction. -/
def c8Result : CrawlState × Metadata :=
  match extract_metadata siteX doc8 "https://x.com/b" st8 with
  | .ok p => p
  | .error (_, s) =>
    (s, ⟨"", "", [], [], SDFindings.init, none⟩)

/-- Claim C8, witness: the duplicate-title increment at a concrete page. -/
theorem claim_C8_witness :
    getCount c8Result.1.crawl_issues "duplicate_titles" =
      getCount st8.crawl_issues "duplicate_titles" + 1 ∧
    alookup c8Result.1.title_tracking (pyStrip "Home") =
      some (["https://x.com/a"] ++ ["https://x.com/b"]) :=
  claim_C8_duplicate_title siteX doc8 "https://x.com/b" st8 c8Result.1 c8Result.2
    "Home" ["https://x.com/a"] (by rfl) rfl (by rfl)

/-! ## Link-graph walk (`SiteCrawler.analyze_internal_links`, src:449-500) -/

/-- The scheme skip of src:477: no scheme, or a `mailto`/`tel`/`javascript`
scheme. -/
def skipScheme (site : Site) (u : String) : Bool :=
  site.schemeOf u = "" ∨ pyStartsWith (site.schemeOf u) "mailto" ∨
    pyStartsWith (site.schemeOf u) "tel" ∨
    pyStartsWith (site.schemeOf u) "javascript"

/-- The in-scope test of src:481: the link's netloc equals the current
page's netloc or its `www.` variant. -/
def isInternalTo (site : Site) (domain u : String) : Bool :=
  site.netlocOf u = domain ∨ site.netlocOf u = "www." ++ domain

/-- Recording one in-scope link found on `url` (src:484-490): both
adjacency maps, then the depth, assigned only on first discovery. -/
def recordLink (g : LinkState) (url link : String) (depth : Nat) : LinkState :=
  let g1 := { g with internal_links := addToSet g.internal_links url link }
  let g2 := { g1 with inbound_links := addToSet g1.inbound_links link url }
  if hasKey g2.page_depths link then g2
  else { g2 with page_depths := setVal g2.page_depths link (depth + 1) }

/-- The loop over the links of one page (src:470-497); `recur` is the
recursive call (at depth + 1) into a link not yet visited. -/
def analyzeLoop (site : Site)
    (recur : String → List String × LinkState → List String × LinkState)
    (url : String) (depth : Nat) :
    List String → List String × LinkState → List String × LinkState
  | [], s => s
  | link :: rest, (vis, g) =>
    if skipScheme site link then analyzeLoop site recur url depth rest (vis, g)
    else if isInternalTo site (site.netlocOf url) link then
      let g := recordLink g url link depth
      if link ∈ vis then analyzeLoop site recur url depth rest (vis, g)
      else analyzeLoop site recur url depth rest (recur link (vis, g))
    else analyzeLoop site recur url depth rest (vis, g)

/-- The recursive walk `analyze_internal_links(url, depth, visited)` for a
non-`None` visited set (src:455-497), with structural fuel: the Python
recursion needs none (every recursive call is on an unvisited URL), and the
theorems below require fuel at least the number of fetchable pages plus
one, beyond which more fuel cannot change the result. -/
def analyzeGo (site : Site) : Nat → String → Nat →
    List String × LinkState → List String × LinkState
  | 0, _, _, s => s
  | fuel + 1, url, depth, (vis, g) =>
    if url ∈ vis then (vis, g)
    else
      let vis := url :: vis
      match site.content url with
      | none => (vis, g)
      | some doc =>
        analyzeLoop site (fun u s => analyzeGo site fuel u (depth + 1) s)
          url depth doc.links (vis, g)

/-- `analyze_internal_links(url)` as the crawler calls it, with
`visited=None` (src:451-453): a fresh visited set and the unconditional
assignment `self.page_depths[url] = 0`. -/
def analyze_internal_links (site : Site) (fuel : Nat) (url : String)
    (g : LinkState) : LinkState :=
  (analyzeGo site fuel url 0
    ([], { g with page_depths := setVal g.page_depths url 0 })).2

/-! ### Claim C1: depth assignment -/

theorem recordLink_depths_bound (g : LinkState) (url link : String) (dep : Nat)
    (k : String) (d : Nat) (h : alookup g.page_depths k = some d) :
    alookup (recordLink g url link dep).page_depths k = some d := by
  unfold recordLink
  dsimp only
  split_ifs with hk
  · exact h
  · by_cases hkl : link = k
    · subst hkl
      rw [hasKey, h] at hk
      simp at hk
    · rw [alookup_setVal_other _ _ _ _ hkl]
      exact h

theorem analyzeLoop_depths_bound (site : Site)
    (recur : String → List String × LinkState → List String × LinkState)
    (url : String) (dep : Nat) (k : String) (d : Nat)
    (hrec : ∀ u s, alookup s.2.page_depths k = some d →
      alookup (recur u s).2.page_depths k = some d) :
    ∀ (links : List String) (vis : List String) (g : LinkState),
      alookup g.page_depths k = some d →
      alookup (analyzeLoop site recur url dep links (vis, g)).2.page_depths k =
        some d := by
  intro links
  induction links with
  | nil => intro vis g h; exact h
  | cons link rest ih =>
    intro vis g h
    unfold analyzeLoop
    split_ifs with h1 h2 h3
    · exact ih vis g h
    · exact ih vis _ (recordLink_depths_bound g url link dep k d h)
    · have h' := recordLink_depths_bound g url link dep k d h
      have h'' := hrec link (vis, recordLink g url link dep) h'
      rcases hrc : recur link (vis, recordLink g url link dep) with ⟨v2, g2⟩
      rw [hrc] at h''
      dsimp only
      rw [hrc]
      exact ih v2 g2 h''
    · exact ih vis g h

theorem analyzeGo_depths_bound (site : Site) (k : String) (d : Nat) :
    ∀ (fuel : Nat) (u : String) (dep : Nat) (vis : List String) (g : LinkState),
      alookup g.page_depths k = some d →
      alookup (analyzeGo site fuel u dep (vis, g)).2.page_depths k = some d := by
  intro fuel
  induction fuel with
  | zero => intro u dep vis g h; exact h
  | succ fuel ih =>
    intro u dep vis g h
    unfold analyzeGo
    split_ifs with h1
    · exact h
    · cases hc : site.content u with
      | none => exact h
      | some doc =>
        apply analyzeLoop_depths_bound site _ u dep k d
        · intro u' s hs
          rcases s with ⟨vs, gs⟩
          exact ih u' (dep + 1) vs gs hs
        · exact h

/-- A two-page demo site: the seed links to `b`, `b` links nowhere. -/
def demoSite : Site :=
  ⟨fun _ => "s", fun _ => "https",
   fun u => if u = "https://s/" then
       some { PageDoc.empty with links := ["https://s/b"] }
     else if u = "https://s/b" then some PageDoc.empty else none,
   ["https://s/", "https://s/b"], none, [],
   fun _ _ => .raised "offline", fun _ => .ok (), fun _ => .error (.valueError "v"),
   fun _ => none⟩

/-- Claim C1, what the code actually does: every call of
`analyze_internal_links(url)` (and `crawl_site` makes one such call for the
seed and for every depth-1 page it recurses into, src:582) unconditionally
resets `page_depths[url]` to 0.  Concretely, on a site where the seed's only
link is `b`: the seed's walk assigns `depth(b) = depth(seed) + 1 = 1` with
`b` first discovered by the seed, and the subsequent
`analyze_internal_links(b)` performed by `crawl_site(b, 1)` overwrites it to
0 — the depth is recomputed after first discovery, contradicting
`depth(page) = depth(discoverer) + 1`. -/
theorem claim_C1_depth_reset :
    (∀ (site : Site) (fuel : Nat) (url : String) (g : LinkState),
      alookup (analyze_internal_links site fuel url g).page_depths url = some 0) ∧
    alookup (analyze_internal_links demoSite 5 "https://s/"
      LinkState.init).page_depths "https://s/b" = some 1 ∧
    getSet (analyze_internal_links demoSite 5 "https://s/"
      LinkState.init).inbound_links "https://s/b" = ["https://s/"] ∧
    alookup (analyze_internal_links demoSite 5 "https://s/b"
      (analyze_internal_links demoSite 5 "https://s/"
        LinkState.init)).page_depths "https://s/b" = some 0 := by
  refine ⟨?_, by decide, by decide, by decide⟩
  intro site fuel url g
  unfold analyze_internal_links
  exact analyzeGo_depths_bound site url 0 fuel url 0 [] _
    (alookup_setVal_self _ _ _)

/-! ## Orphan pages and linking metrics (src:502-534) -/

/-- `identify_orphan_pages` (src:502-507): iterate the keys of
`internal_links`; the defaultdict read `self.inbound_links[page]` creates
an empty entry before the emptiness test, and orphans accumulate into the
crawler's `orphan_pages` set. -/
def identifyLoop (g : LinkState) (orphans : List String) :
    List String → LinkState × List String
  | [] => (g, orphans)
  | p :: rest =>
    let g1 := { g with inbound_links := ensureKey g.inbound_links p }
    let orphans1 :=
      if getSet g1.inbound_links p = [] then setAdd orphans p else orphans
    identifyLoop g1 orphans1 rest

def identify_orphan_pages (g : LinkState) (orphans : List String) :
    LinkState × List String :=
  identifyLoop g orphans (keysOf g.internal_links)

/-- The per-page dict of `get_page_linking_metrics` (src:509-515); the two
defaultdict reads create entries for `url`, and an absent depth reads as
-1. -/
structure PageLinkMetrics where
  outbound_links : Nat
  inbound_links : Nat
  depth : Int
deriving DecidableEq, Repr

def get_page_linking_metrics (url : String) (g : LinkState) :
    LinkState × PageLinkMetrics :=
  let g1 := { g with internal_links := ensureKey g.internal_links url }
  let g2 := { g1 with inbound_links := ensureKey g1.inbound_links url }
  (g2,
   ⟨(getSet g2.internal_links url).length, (getSet g2.inbound_links url).length,
    match alookup g2.page_depths url with
    | some d => (d : Int)
    | none => -1⟩)

/-- The metrics dict of `get_linking_metrics` (src:517-534). -/
structure LinkingMetrics where
  orphan_pages : List String
  depth_distribution : List (Nat × Nat)
  total_pages : Nat
  total_internal_links : Nat
deriving DecidableEq, Repr

/-- The depth-distribution loop of src:529-532: pages whose depth is
recorded (`.get(url, -1) >= 0`) are counted per depth. -/
def depthDistLoop (depths : List (String × Nat)) :
    List String → List (Nat × Nat) → List (Nat × Nat)
  | [], dd => dd
  | u :: rest, dd =>
    match alookup depths u with
    | some d => depthDistLoop depths rest (incCount dd d)
    | none => depthDistLoop depths rest dd

def get_linking_metrics (g : LinkState) (orphans : List String) :
    LinkState × List String × LinkingMetrics :=
  let p := identify_orphan_pages g orphans
  (p.1, p.2,
   ⟨p.2,
    depthDistLoop p.1.page_depths (keysOf p.1.internal_links) [],
    (keysOf p.1.internal_links).length,
    ((p.1.internal_links).map (fun q => q.2.length)).sum⟩)

/-- `get_robots_txt` (src:261-273): fetch once, cache forever; a non-200
status or an exception caches `""` (modelled by `site.robots_txt = none`). -/
def get_robots_txt (site : Site) (st : CrawlState) : CrawlState :=
  match st.robots_txt_content with
  | some _ => st
  | none => { st with robots_txt_content := some (site.robots_txt.getD "") }

/-! ## The crawl orchestrator (`SiteCrawler.crawl_site`, src:536-663) -/

/-- The link loop of src:588-610: collect in-scope, not-yet-visited links
(a set, modelled in insertion order) and `check_url` every non-skipped
link. -/
def probeLinks (site : Site) (domain : String) (visited : List String) :
    List String → List String → TechState → TechState × List String
  | [], acc, tech => (tech, acc)
  | l :: rest, acc, tech =>
    if skipScheme site l then probeLinks site domain visited rest acc tech
    else
      let acc1 := if isInternalTo site domain l ∧ l ∉ visited ∧ l ∉ acc
        then acc ++ [l] else acc
      probeLinks site domain visited rest acc1 (check_url site.net l
        (isInternalTo site domain l) tech).state

/-- The `crawl_issues_summary` dict of src:621-630. -/
def crawlIssuesSummary (st : CrawlState) : List (String × Nat) :=
  [("urls_missing_title_tag", getCount st.crawl_issues "urls_missing_title_tag"),
   ("urls_missing_meta_description",
     getCount st.crawl_issues "urls_missing_meta_description"),
   ("urls_missing_h1", getCount st.crawl_issues "urls_missing_h1"),
   ("images_missing_alt_text", getCount st.crawl_issues "images_missing_alt_text"),
   ("duplicate_titles", getCount st.crawl_issues "duplicate_titles"),
   ("duplicate_meta_descriptions",
     getCount st.crawl_issues "duplicate_meta_descriptions"),
   ("duplicate_content", getCount st.crawl_issues "duplicate_content"),
   ("redirect_loops", st.tech.redirect_loops)]

/-- The `page_info` sub-dict of src:613-618. -/
structure CrawlPageInfo where
  url : String
  indexability : Indexability
  metadata : Metadata
  linking_metrics : PageLinkMetrics

/-- The results dict of `crawl_site` (src:550-558, filled in at 613-645);
recursive because `linked_pages` holds the children's results. -/
inductive CrawlResults where
  | mk (url_count : Nat) (domain analyzed_url : String)
      (page_info : Option CrawlPageInfo)
      (crawl_issues_summary canonical_issues_summary : List (String × Nat))
      (technical_analysis : Option (TechState × List String × List (Nat × Nat)))
      (internal_linking_summary : Option (Nat × Nat × Nat))
      (linked_pages : List CrawlResults)

def CrawlResults.analyzed_url : CrawlResults → String
  | .mk _ _ a _ _ _ _ _ _ => a

def CrawlResults.linked_pages : CrawlResults → List CrawlResults
  | .mk _ _ _ _ _ _ _ _ l => l

def CrawlResults.page_info : CrawlResults → Option CrawlPageInfo
  | .mk _ _ _ p _ _ _ _ _ => p

mutual

/-- `SiteCrawler.crawl_site` (src/site_analyzer.py:536-663).  Returns the
results dict (`none` for an already-visited URL, src:541), the visited set
and the crawler state.  `fuel` bounds only the embedded link walk of
src:582.  An exception from `extract_metadata` is the body's only possible
exception and reaches the handler of src:661, which returns the initial
results dict; the walk of src:582 at depth 0 recurses through
`linked_pages` only when `depth == 0` (src:648). -/
def crawl_site (site : Site) (fuel : Nat) (url : String) (depth : Nat)
    (visited : List String) (st : CrawlState) :
    Option CrawlResults × List String × CrawlState :=
  if url ∈ visited then (none, visited, st)
  else
    let visited1 := url :: visited
    let domain := site.netlocOf url
    let base_url := site.schemeOf url ++ "://" ++ domain
    let results0 : CrawlResults := .mk 1 base_url url none [] [] none none []
    let st0 := get_robots_txt site st
    let stA := { st0 with tech := (validate_sitemap site domain st0.tech []).1 }
    match site.content url with
    | none => (some results0, visited1, stA)
    | some doc =>
      match extract_metadata site doc url stA with
      | .error p => (some results0, visited1, p.2)
      | .ok q =>
        let p2 := check_indexability site doc url q.1
        let st2 := { p2.1 with
          graph := analyze_internal_links site fuel url p2.1.graph }
        let p3 := probeLinks site domain visited1 doc.links [] st2.tech
        let st3 := { st2 with tech := p3.1 }
        let p4 := get_page_linking_metrics url st3.graph
        let st4 := { st3 with graph := p4.1 }
        let cis := crawlIssuesSummary st4
        let p5 := get_linking_metrics st4.graph st4.orphan_pages
        let st5 := { st4 with graph := p5.1, orphan_pages := p5.2.1 }
        let results : CrawlResults := .mk 1 base_url url
          (some ⟨url, p2.2, q.2, p4.2⟩) cis st5.canonical_issues
          (some (st5.tech, p5.2.2.orphan_pages, p5.2.2.depth_distribution))
          (some (p5.2.2.total_pages, p5.2.2.total_internal_links,
            p5.2.2.orphan_pages.length)) []
        if hd : depth = 0 then
          let c := crawlChildren site fuel p3.2 (depth + 1) visited1 st5
          (some (.mk 1 base_url url
            (some ⟨url, p2.2, q.2, p4.2⟩) cis st5.canonical_issues
            (some (st5.tech, p5.2.2.orphan_pages, p5.2.2.depth_distribution))
            (some (p5.2.2.total_pages, p5.2.2.total_internal_links,
              p5.2.2.orphan_pages.length)) c.1), c.2.1, c.2.2)
        else (some results, visited1, st5)
termination_by (2 * (1 - depth), 0)
decreasing_by
  subst hd
  exact Prod.Lex.left _ _ (by omega)

/-- The loop of src:648-656: crawl each collected link at depth + 1,
threading the shared visited set and crawler state, appending each
non-`None` result. -/
def crawlChildren (site : Site) (fuel : Nat) (ls : List String) (d : Nat)
    (visited : List String) (st : CrawlState) :
    List CrawlResults × List String × CrawlState :=
  match ls with
  | [] => ([], visited, st)
  | u :: rest =>
    let r := crawl_site site fuel u d visited st
    let r2 := crawlChildren site fuel rest d r.2.1 r.2.2
    match r.1 with
    | some res => (res :: r2.1, r2.2)
    | none => r2
termination_by (2 * (2 - d) - 1, ls.length)
decreasing_by
  · rcases Nat.lt_or_ge (2 * (1 - d)) (2 * (2 - d) - 1) with h | h
    · exact Prod.Lex.left _ _ h
    · have he : 2 * (1 - d) = 2 * (2 - d) - 1 := by omega
      rw [he]
      exact Prod.Lex.right _ (by simp only [List.length_cons]; omega)
  · exact Prod.Lex.right _ (by simp only [List.length_cons]; omega)

end

/-! ### Claim C5: recursion only from the seed -/

/-- A JSON-LD script that makes `analyze_structured_data` raise: it parsed
(`.ok`) but its value is not a dict, so `schema.get("@type", "")` at
src:689 raises `AttributeError`. -/
def sdBad : Except String JVal → Bool
  | .ok (.jobj _) => false
  | .ok _ => true
  | .error _ => false

/-- Whether `extract_metadata` on this page raises (the only exception the
`crawl_site` body can see). -/
def pageRaises (doc : PageDoc) : Bool :=
  doc.json_ld.any sdBad

theorem jsonLdLoop_ok_iff (url : String) :
    ∀ (scripts : List (Except String JVal)) (ss : StructState) (f : SDFindings),
      (∃ r, jsonLdLoop url scripts ss f = .ok r) ↔ scripts.any sdBad = false := by
  intro scripts
  induction scripts with
  | nil =>
    intro ss f
    simp [jsonLdLoop]
  | cons script rest ih =>
    intro ss f
    cases script with
    | error e => simp [jsonLdLoop, sdBad, ih]
    | ok v =>
      cases v with
      | jobj t => simp [jsonLdLoop, JVal.getType, sdBad, ih]
      | jarr items => simp [jsonLdLoop, JVal.getType, sdBad]
      | jstr s => simp [jsonLdLoop, JVal.getType, sdBad]

theorem analyze_ok_iff (doc : PageDoc) (url : String) (ss : StructState) :
    (∃ r, analyze_structured_data doc url ss = .ok r) ↔
      pageRaises doc = false := by
  by_cases hje : doc.json_ld.isEmpty
  · constructor
    · intro _
      unfold pageRaises
      rw [List.isEmpty_iff] at hje
      rw [hje]
      rfl
    · intro _
      unfold analyze_structured_data
      dsimp only
      rw [if_pos hje]
      exact ⟨_, rfl⟩
  · constructor
    · intro ⟨r, hr⟩
      unfold analyze_structured_data at hr
      dsimp only at hr
      rw [if_neg hje] at hr
      cases hl : jsonLdLoop url doc.json_ld
          { ss with json_ld := { ss.json_ld with count := ss.json_ld.count + 1 } }
          { SDFindings.init with implementation_method := some "json_ld" } with
      | error x =>
        rw [hl] at hr
        exact absurd hr (by simp)
      | ok q =>
        exact (jsonLdLoop_ok_iff url doc.json_ld _ _).mp ⟨q, hl⟩
    · intro hb
      obtain ⟨⟨ss1, f1⟩, hl⟩ := (jsonLdLoop_ok_iff url doc.json_ld
        { ss with json_ld := { ss.json_ld with count := ss.json_ld.count + 1 } }
        { SDFindings.init with implementation_method := some "json_ld" }).mpr hb
      unfold analyze_structured_data
      dsimp only
      rw [if_neg hje, hl]
      exact ⟨_, rfl⟩

theorem extract_raises (site : Site) (doc : PageDoc) (url : String)
    (st : CrawlState) (p : PyExn × CrawlState)
    (h : extract_metadata site doc url st = .error p) : pageRaises doc = true := by
  cases hb : pageRaises doc with
  | true => rfl
  | false =>
    obtain ⟨r, hr⟩ := (analyze_ok_iff doc url st.sdata).mpr hb
    unfold extract_metadata at h
    rw [hr] at h
    exact absurd h (by simp)

theorem extract_ok_noRaise (site : Site) (doc : PageDoc) (url : String)
    (st : CrawlState) (q : CrawlState × Metadata)
    (h : extract_metadata site doc url st = .ok q) : pageRaises doc = false := by
  cases hb : pageRaises doc with
  | false => rfl
  | true =>
    unfold extract_metadata at h
    cases ha : analyze_structured_data doc url st.sdata with
    | ok r =>
      have := (analyze_ok_iff doc url st.sdata).mp ⟨r, ha⟩
      rw [this] at hb
      exact absurd hb (by simp)
    | error x =>
      rw [ha] at h
      exact absurd h (by simp)

/-- The link-collection loop of src:588-603, stripped of its `check_url`
side effect: the links added to the `internal_links` local set, in order of
first occurrence. -/
def collectScopeLinks (site : Site) (domain : String) (visited : List String) :
    List String → List String → List String
  | [], acc => acc
  | l :: rest, acc =>
    if skipScheme site l then collectScopeLinks site domain visited rest acc
    else collectScopeLinks site domain visited rest
      (if isInternalTo site domain l ∧ l ∉ visited ∧ l ∉ acc
        then acc ++ [l] else acc)

theorem probeLinks_acc (site : Site) (domain : String) (visited : List String) :
    ∀ (links acc : List String) (tech : TechState),
      (probeLinks site domain visited links acc tech).2 =
        collectScopeLinks site domain visited links acc := by
  intro links
  induction links with
  | nil => intro acc tech; rfl
  | cons l rest ih =>
    intro acc tech
    unfold probeLinks collectScopeLinks
    split_ifs <;> apply ih

theorem collectScopeLinks_mem (site : Site) (domain : String)
    (visited : List String) :
    ∀ (links acc : List String) (u : String),
      u ∈ collectScopeLinks site domain visited links acc →
      u ∈ acc ∨ (u ∈ links ∧ skipScheme site u = false ∧
        isInternalTo site domain u = true ∧ u ∉ visited) := by
  intro links
  induction links with
  | nil => intro acc u h; exact Or.inl h
  | cons l rest ih =>
    intro acc u h
    unfold collectScopeLinks at h
    split_ifs at h with h1 h2
    · rcases ih _ u h with ha | ⟨hm, hr⟩
      · exact Or.inl ha
      · exact Or.inr ⟨List.mem_cons_of_mem l hm, hr⟩
    · rcases ih _ u h with ha | ⟨hm, hr⟩
      · rcases List.mem_append.mp ha with ha' | hl
        · exact Or.inl ha'
        · have hul : u = l := by simpa using hl
          subst hul
          exact Or.inr ⟨List.mem_cons_self _ _,
            by simpa using h1, h2.1, h2.2.1⟩
      · exact Or.inr ⟨List.mem_cons_of_mem l hm, hr⟩
    · rcases ih _ u h with ha | ⟨hm, hr⟩
      · exact Or.inl ha
      · exact Or.inr ⟨List.mem_cons_of_mem l hm, hr⟩

theorem collectScopeLinks_nodup (site : Site) (domain : String)
    (visited : List String) :
    ∀ (links acc : List String), acc.Nodup →
      (collectScopeLinks site domain visited links acc).Nodup := by
  intro links
  induction links with
  | nil => intro acc h; exact h
  | cons l rest ih =>
    intro acc h
    unfold collectScopeLinks
    split_ifs with h1 h2
    · exact ih _ h
    · apply ih
      simp only [List.nodup_append, List.nodup_cons, List.not_mem_nil,
        not_false_iff, List.nodup_nil, and_true, true_and]
      constructor
      · exact h
      · intro a ha hal
        have : a = l := by simpa using hal
        subst this
        exact h2.2.2 ha
    · exact ih _ h

theorem crawl_site_nonroot (site : Site) (fuel : Nat) (u : String) (d : Nat)
    (cv : List String) (st : CrawlState) (hd : d ≠ 0) (hnv : u ∉ cv) :
    (∃ res, (crawl_site site fuel u d cv st).1 = some res ∧
      res.analyzed_url = u ∧ res.linked_pages = []) ∧
    (crawl_site site fuel u d cv st).2.1 = u :: cv := by
  rw [crawl_site.eq_def]
  rw [if_neg hnv]
  dsimp only
  split
  · exact ⟨⟨_, rfl, rfl, rfl⟩, rfl⟩
  · split
    · exact ⟨⟨_, rfl, rfl, rfl⟩, rfl⟩
    · rw [dif_neg hd]
      exact ⟨⟨_, rfl, rfl, rfl⟩, rfl⟩

theorem crawlChildren_spec (site : Site) (fuel d : Nat) (hd : d ≠ 0) :
    ∀ (ls cv : List String) (st : CrawlState), ls.Nodup →
      (∀ u ∈ ls, u ∉ cv) →
      ((crawlChildren site fuel ls d cv st).1.map CrawlResults.analyzed_url = ls ∧
       ∀ r ∈ (crawlChildren site fuel ls d cv st).1, r.linked_pages = []) := by
  intro ls
  induction ls with
  | nil =>
    intro cv st _ _
    rw [crawlChildren.eq_def]
    exact ⟨rfl, by intro r hr; exact absurd hr (by simp)⟩
  | cons u rest ih =>
    intro cv st hnd hdisj
    obtain ⟨⟨res, hres, hurl, hlp⟩, hvis⟩ :=
      crawl_site_nonroot site fuel u d cv st hd (hdisj u (List.mem_cons_self _ _))
    have hnd' := (List.nodup_cons.mp hnd).2
    have hdisj' : ∀ v ∈ rest, v ∉ u :: cv := by
      intro v hv
      simp only [List.mem_cons, not_or]
      exact ⟨fun he => (List.nodup_cons.mp hnd).1 (he ▸ hv),
        hdisj v (List.mem_cons_of_mem u hv)⟩
    obtain ⟨ihm, ihl⟩ := ih (u :: cv) ((crawl_site site fuel u d cv st).2.2)
      hnd' hdisj'
    rw [crawlChildren.eq_def]
    dsimp only
    rw [hres, hvis]
    constructor
    · rw [List.map_cons, hurl, ihm]
    · intro r hr
      rcases List.mem_cons.mp hr with he | hm
      · exact he ▸ hlp
      · exact ihl r hm

/-- The URLs the seed-level `crawl_site` recurses into: the in-scope,
unvisited links of the seed page, in order of first occurrence — none when
the page has no content or its metadata extraction raises. -/
def expectedChildren (site : Site) (url : String) (cv : List String) :
    List String :=
  match site.content url with
  | none => []
  | some doc =>
    if pageRaises doc then []
    else collectScopeLinks site (site.netlocOf url) (url :: cv) doc.links []

/-- Claim C5: the orchestrator recurses only from the seed (depth 0).  A
`crawl_site` call at any nonzero depth returns a result with empty
`linked_pages`; the seed call's `linked_pages` are exactly the in-scope
discovered links of the seed page (in first-occurrence order), and none of
those children is expanded further — the crawl has two effective levels. -/
theorem claim_C5_two_level (site : Site) (fuel : Nat) :
    (∀ (u : String) (d : Nat) (cv : List String) (st : CrawlState)
       (r : CrawlResults), d ≠ 0 → (crawl_site site fuel u d cv st).1 = some r →
       r.linked_pages = []) ∧
    (∀ (url : String) (cv : List String) (st : CrawlState) (r : CrawlResults),
       (crawl_site site fuel url 0 cv st).1 = some r →
       r.linked_pages.map CrawlResults.analyzed_url =
         expectedChildren site url cv ∧
       ∀ c ∈ r.linked_pages, c.linked_pages = []) := by
  constructor
  · intro u d cv st r hd h
    by_cases hin : u ∈ cv
    · rw [crawl_site.eq_def, if_pos hin] at h
      exact absurd h (by simp)
    · obtain ⟨⟨res, hres, _, hlp⟩, _⟩ := crawl_site_nonroot site fuel u d cv st hd hin
      rw [hres] at h
      rw [Option.some.injEq] at h
      rw [← h]
      exact hlp
  · intro url cv st r h
    by_cases hin : url ∈ cv
    · rw [crawl_site.eq_def, if_pos hin] at h
      exact absurd h (by simp)
    · rw [crawl_site.eq_def, if_neg hin] at h
      dsimp only at h
      cases hc : site.content url with
      | none =>
        rw [hc] at h
        dsimp only at h
        rw [Option.some.injEq] at h
        subst h
        refine ⟨?_, by intro c hc'; exact absurd hc' (by simp [CrawlResults.linked_pages])⟩
        unfold expectedChildren
        rw [hc]
        rfl
      | some doc =>
        rw [hc] at h
        dsimp only at h
        split at h
        · next p heq =>
          dsimp only at h
          rw [Option.some.injEq] at h
          subst h
          refine ⟨?_, by intro c hc'; exact absurd hc' (by simp [CrawlResults.linked_pages])⟩
          unfold expectedChildren
          rw [hc]
          dsimp only
          rw [if_pos (extract_raises site doc url _ p heq)]
          rfl
        · next q heq =>
          have hpr := extract_ok_noRaise site doc url _ q heq
          rw [dif_pos rfl] at h
          dsimp only at h
          rw [probeLinks_acc] at h
          rw [Option.some.injEq] at h
          subst h
          have hnd : (collectScopeLinks site (site.netlocOf url) (url :: cv)
              doc.links []).Nodup :=
            collectScopeLinks_nodup site _ _ doc.links [] List.nodup_nil
          have hdisj : ∀ v ∈ collectScopeLinks site (site.netlocOf url)
              (url :: cv) doc.links [], v ∉ url :: cv := by
            intro v hv
            rcases collectScopeLinks_mem site _ _ doc.links [] v hv with hx | hx
            · exact absurd hx (by simp)
            · exact hx.2.2.2
          simp only [CrawlResults.linked_pages]
          constructor
          · rw [(crawlChildren_spec site fuel (0 + 1) (by simp) _ (url :: cv) _
              hnd hdisj).1]
            unfold expectedChildren
            rw [hc]
            dsimp only
            rw [if_neg (by simp [hpr])]
          · intro c hc'
            exact (crawlChildren_spec site fuel (0 + 1) (by simp) _ (url :: cv) _
              hnd hdisj).2 c hc'

/-! ### Claim C2: orphan exactness.  Lemmas about the map helpers. -/

theorem getSet_addToSet_self (m : List (String × List String)) (k x : String) :
    x ∈ getSet (addToSet m k x) k := by
  induction m with
  | nil => simp [addToSet, getSet, alookup]
  | cons a t ih =>
    obtain ⟨b, l⟩ := a
    by_cases hb : b = k
    · subst hb
      by_cases hx : x ∈ l
      · simpa [addToSet, hx, getSet, alookup] using hx
      · simp [addToSet, hx, getSet, alookup]
    · simpa [addToSet, hb, getSet, alookup] using ih

theorem getSet_addToSet_mono (m : List (String × List String)) (k x j y : String)
    (h : y ∈ getSet m j) : y ∈ getSet (addToSet m k x) j := by
  induction m with
  | nil => simp [getSet, alookup] at h
  | cons a t ih =>
    obtain ⟨b, l⟩ := a
    by_cases hb : b = k
    · subst hb
      by_cases hx : x ∈ l
      · simpa [addToSet, hx] using h
      · by_cases hj : b = j
        · subst hj
          have h' : y ∈ l := by simpa [getSet, alookup] using h
          simp [addToSet, hx, getSet, alookup, h']
        · simp only [getSet, alookup, if_neg hj] at h
          simpa [addToSet, hx, getSet, alookup, hj] using h
    · by_cases hj : b = j
      · subst hj
        simp only [getSet, alookup, if_pos rfl, Option.getD_some] at h
        simpa [addToSet, hb, getSet, alookup] using h
      · simp only [getSet, alookup, if_neg hj] at h
        simpa [addToSet, hb, getSet, alookup, hj] using ih h

theorem addToSet_eq_self (m : List (String × List String)) (k x : String)
    (h : x ∈ getSet m k) : addToSet m k x = m := by
  induction m with
  | nil => simp [getSet, alookup] at h
  | cons a t ih =>
    obtain ⟨b, l⟩ := a
    by_cases hb : b = k
    · subst hb
      have hx : x ∈ l := by simpa [getSet, alookup] using h
      simp [addToSet, hx]
    · have h' : x ∈ getSet t k := by simpa [getSet, alookup, hb] using h
      simp [addToSet, hb, ih h']

theorem getSet_append_empty (m : List (String × List String)) (k j : String) :
    getSet (m ++ [(k, [])]) j = getSet m j := by
  induction m with
  | nil => by_cases hj : k = j <;> simp [getSet, alookup, hj]
  | cons a t ih =>
    obtain ⟨b, l⟩ := a
    by_cases hb : b = j
    · simp [getSet, alookup, hb]
    · simpa [getSet, alookup, hb] using ih

theorem getSet_ensureKey (m : List (String × List String)) (k j : String) :
    getSet (ensureKey m k) j = getSet m j := by
  unfold ensureKey
  split_ifs with h
  · rfl
  · exact getSet_append_empty m k j

theorem hasKey_setVal_mono {κ α : Type} [DecidableEq κ] (m : List (κ × α))
    (k j : κ) (v : α) (h : hasKey m j = true) :
    hasKey (setVal m k v) j = true := by
  by_cases hjk : k = j
  · subst hjk
    simp [hasKey, alookup_setVal_self]
  · rw [hasKey, alookup_setVal_other m k j v hjk]
    exact h

theorem keysOf_ensureKey_mem (m : List (String × List String)) (k x : String) :
    x ∈ keysOf (ensureKey m k) ↔ x ∈ keysOf m ∨ x = k := by
  unfold ensureKey
  split_ifs with h
  · constructor
    · exact Or.inl
    · rintro (hx | rfl)
      · exact hx
      · exact alookup_isSome_mem m x h
  · simp [keysOf]

theorem mem_setAdd_iff (s : List String) (x y : String) :
    y ∈ setAdd s x ↔ y ∈ s ∨ y = x := by
  unfold setAdd
  split_ifs with h
  · constructor
    · exact Or.inl
    · rintro (hy | rfl)
      · exact hy
      · exact h
  · simp

/-! The walk's correctness predicates. -/

/-- `v` is a link of page `w` that the walk of src:470-494 does not skip:
it appears among the page's anchors, has a servable scheme, and is
in-scope for `w`'s domain. -/
def goodLink (site : Site) (w : String) (doc : PageDoc) (v : String) : Prop :=
  v ∈ doc.links ∧ skipScheme site v = false ∧
    isInternalTo site (site.netlocOf w) v = true

/-- The edge `a → b` is recorded in both adjacency maps. -/
def edgeIn (g : LinkState) (a b : String) : Prop :=
  b ∈ getSet g.internal_links a ∧ a ∈ getSet g.inbound_links b

/-- Page `w` has been fully processed: each of its good links has its edge
recorded, its target visited and its depth assigned. -/
def ProcessedIn (site : Site) (V : List String) (g : LinkState) (w : String) :
    Prop :=
  ∀ doc, site.content w = some doc → ∀ v, goodLink site w doc v →
    edgeIn g w v ∧ v ∈ V ∧ hasKey g.page_depths v = true

/-- Every member of `V` is fully processed: re-walking any page of `V`
cannot change the graph. -/
def Closed (site : Site) (V : List String) (g : LinkState) : Prop :=
  ∀ w ∈ V, ProcessedIn site V g w

/-- The walk only grows the visited set, the recorded edges and the depth
keys. -/
def StMono (s t : List String × LinkState) : Prop :=
  (∀ x ∈ s.1, x ∈ t.1) ∧ (∀ a b, edgeIn s.2 a b → edgeIn t.2 a b) ∧
  (∀ k, hasKey s.2.page_depths k = true → hasKey t.2.page_depths k = true)

theorem stMono_refl (s : List String × LinkState) : StMono s s :=
  ⟨fun _ h => h, fun _ _ h => h, fun _ h => h⟩

theorem stMono_trans {s t u : List String × LinkState} (h1 : StMono s t)
    (h2 : StMono t u) : StMono s u :=
  ⟨fun x h => h2.1 x (h1.1 x h), fun a b h => h2.2.1 a b (h1.2.1 a b h),
   fun k h => h2.2.2 k (h1.2.2 k h)⟩

theorem processedIn_mono (site : Site) {V W : List String} {g g' : LinkState}
    (w : String) (hV : ∀ x ∈ V, x ∈ W)
    (hE : ∀ a b, edgeIn g a b → edgeIn g' a b)
    (hK : ∀ k, hasKey g.page_depths k = true → hasKey g'.page_depths k = true)
    (h : ProcessedIn site V g w) : ProcessedIn site W g' w := by
  intro doc hdoc v hv
  obtain ⟨he, hm, hk⟩ := h doc hdoc v hv
  exact ⟨hE _ _ he, hV _ hm, hK _ hk⟩

theorem recordLink_edge (g : LinkState) (url link : String) (dep : Nat) :
    edgeIn (recordLink g url link dep) url link := by
  unfold recordLink edgeIn
  dsimp only
  split_ifs with hk
  · exact ⟨getSet_addToSet_self _ _ _, getSet_addToSet_self _ _ _⟩
  · exact ⟨getSet_addToSet_self _ _ _, getSet_addToSet_self _ _ _⟩

theorem recordLink_edge_mono (g : LinkState) (url link : String) (dep : Nat)
    (a b : String) (h : edgeIn g a b) :
    edgeIn (recordLink g url link dep) a b := by
  unfold recordLink edgeIn
  dsimp only
  split_ifs with hk
  · exact ⟨getSet_addToSet_mono _ _ _ _ _ h.1, getSet_addToSet_mono _ _ _ _ _ h.2⟩
  · exact ⟨getSet_addToSet_mono _ _ _ _ _ h.1, getSet_addToSet_mono _ _ _ _ _ h.2⟩

theorem recordLink_hasKey_self (g : LinkState) (url link : String) (dep : Nat) :
    hasKey (recordLink g url link dep).page_depths link = true := by
  unfold recordLink
  dsimp only
  split_ifs with hk
  · exact hk
  · simp [hasKey, alookup_setVal_self]

theorem recordLink_hasKey_mono (g : LinkState) (url link : String) (dep : Nat)
    (k : String) (h : hasKey g.page_depths k = true) :
    hasKey (recordLink g url link dep).page_depths k = true := by
  unfold recordLink
  dsimp only
  split_ifs with hk
  · exact h
  · exact hasKey_setVal_mono _ _ _ _ h

theorem recordLink_noop (g : LinkState) (url link : String) (dep : Nat)
    (he : edgeIn g url link) (hk : hasKey g.page_depths link = true) :
    recordLink g url link dep = g := by
  unfold recordLink
  dsimp only
  rw [addToSet_eq_self _ _ _ he.1, addToSet_eq_self _ _ _ he.2]
  rw [if_pos hk]

theorem analyzeLoop_mono (site : Site)
    (recur : String → List String × LinkState → List String × LinkState)
    (url : String) (dep : Nat) (hrec : ∀ u s, StMono s (recur u s)) :
    ∀ (links vis : List String) (g : LinkState),
      StMono (vis, g) (analyzeLoop site recur url dep links (vis, g)) := by
  intro links
  induction links with
  | nil => intro vis g; exact stMono_refl _
  | cons l rest ih =>
    intro vis g
    unfold analyzeLoop
    split_ifs with h1 h2 h3
    · exact ih vis g
    · refine stMono_trans ?_ (ih vis (recordLink g url l dep))
      exact ⟨fun x h => h, fun a b h => recordLink_edge_mono _ _ _ _ _ _ h,
        fun k h => recordLink_hasKey_mono _ _ _ _ _ h⟩
    · have m1 : StMono (vis, g) (vis, recordLink g url l dep) :=
        ⟨fun x h => h, fun a b h => recordLink_edge_mono _ _ _ _ _ _ h,
         fun k h => recordLink_hasKey_mono _ _ _ _ _ h⟩
      have m2 := hrec l (vis, recordLink g url l dep)
      rcases hs : recur l (vis, recordLink g url l dep) with ⟨v1, g1⟩
      rw [hs] at m2
      dsimp only
      rw [hs]
      exact stMono_trans m1 (stMono_trans m2 (ih v1 g1))
    · exact ih vis g

theorem analyzeGo_mono (site : Site) :
    ∀ (fuel : Nat) (u : String) (dep : Nat) (s : List String × LinkState),
      StMono s (analyzeGo site fuel u dep s) := by
  intro fuel
  induction fuel with
  | zero => intro u dep s; exact stMono_refl _
  | succ fuel ih =>
    intro u dep s
    rcases s with ⟨vis, g⟩
    unfold analyzeGo
    split_ifs with h1
    · exact stMono_refl _
    · have m1 : StMono (vis, g) (u :: vis, g) :=
        ⟨fun x h => List.mem_cons_of_mem _ h, fun _ _ h => h, fun _ h => h⟩
      cases hc : site.content u with
      | none => exact m1
      | some doc =>
        exact stMono_trans m1 (analyzeLoop_mono site _ u dep
          (fun u' s' => ih u' (dep + 1) s') doc.links (u :: vis) g)

/-- The walk's progress measure: the number of fetchable pages not yet
visited. -/
def walkMeasure (site : Site) (vis : List String) : Nat :=
  (site.pages.filter (fun u => decide (u ∉ vis))).length

theorem walkMeasure_mono (site : Site) (vis vis' : List String)
    (h : ∀ x ∈ vis, x ∈ vis') :
    walkMeasure site vis' ≤ walkMeasure site vis := by
  apply filter_length_mono
  intro x hx
  simp only [decide_eq_true_eq] at hx ⊢
  exact fun hm => hx (h x hm)

theorem walkMeasure_lt (site : Site) (vis : List String) (u : String)
    (hu : u ∈ site.pages) (hnv : u ∉ vis) :
    walkMeasure site (u :: vis) < walkMeasure site vis := by
  apply filter_length_lt site.pages _ _ u
  · intro y hy
    simp only [decide_eq_true_eq, List.mem_cons, not_or] at hy ⊢
    exact hy.2
  · exact hu
  · simpa using hnv
  · simp

theorem analyzeLoop_complete (site : Site)
    (recur : String → List String × LinkState → List String × LinkState)
    (url : String) (dep : Nat) (vis0 : List String)
    (hmono : ∀ u s, StMono s (recur u s))
    (hrec : ∀ u s, (∀ x ∈ vis0, x ∈ s.1) → u ∉ s.1 →
      u ∈ (recur u s).1 ∧
      ∀ w ∈ (recur u s).1, w ∉ s.1 →
        ProcessedIn site (recur u s).1 (recur u s).2 w) :
    ∀ (links vis : List String) (g : LinkState), (∀ x ∈ vis0, x ∈ vis) →
      ((∀ w ∈ (analyzeLoop site recur url dep links (vis, g)).1, w ∉ vis →
        ProcessedIn site (analyzeLoop site recur url dep links (vis, g)).1
          (analyzeLoop site recur url dep links (vis, g)).2 w) ∧
       (∀ v ∈ links, skipScheme site v = false →
        isInternalTo site (site.netlocOf url) v = true →
        edgeIn (analyzeLoop site recur url dep links (vis, g)).2 url v ∧
          v ∈ (analyzeLoop site recur url dep links (vis, g)).1 ∧
          hasKey (analyzeLoop site recur url dep links (vis, g)).2.page_depths v
            = true)) := by
  intro links
  induction links with
  | nil =>
    intro vis g hsub
    exact ⟨fun w hw hnw => absurd hw hnw, fun v hv => absurd hv (by simp)⟩
  | cons l rest ih =>
    intro vis g hsub
    unfold analyzeLoop
    split_ifs with h1 h2 h3
    · obtain ⟨a, b⟩ := ih vis g hsub
      refine ⟨a, ?_⟩
      intro v hv hskip hint
      rcases List.mem_cons.mp hv with rfl | hvr
      · rw [h1] at hskip
        exact absurd hskip (by simp)
      · exact b v hvr hskip hint
    · obtain ⟨a, b⟩ := ih vis (recordLink g url l dep) hsub
      have m := analyzeLoop_mono site recur url dep hmono rest vis
        (recordLink g url l dep)
      refine ⟨a, ?_⟩
      intro v hv hskip hint
      rcases List.mem_cons.mp hv with rfl | hvr
      · exact ⟨m.2.1 _ _ (recordLink_edge g url v dep), m.1 v h3,
          m.2.2 v (recordLink_hasKey_self g url v dep)⟩
      · exact b v hvr hskip hint
    · have hrl := hrec l (vis, recordLink g url l dep) hsub h3
      have mrec := hmono l (vis, recordLink g url l dep)
      rcases hs : recur l (vis, recordLink g url l dep) with ⟨v1, g1⟩
      rw [hs] at hrl mrec
      have hsub1 : ∀ x ∈ vis0, x ∈ v1 := fun x hx => mrec.1 x (hsub x hx)
      obtain ⟨a1, b1⟩ := ih v1 g1 hsub1
      have mrest := analyzeLoop_mono site recur url dep hmono rest v1 g1
      dsimp only
      rw [hs]
      constructor
      · intro w hw hnw
        by_cases hw1 : w ∈ v1
        · exact processedIn_mono site w mrest.1 mrest.2.1 mrest.2.2
            (hrl.2 w hw1 hnw)
        · exact a1 w hw hw1
      · intro v hv hskip hint
        rcases List.mem_cons.mp hv with rfl | hvr
        · refine ⟨?_, mrest.1 v hrl.1, ?_⟩
          · exact mrest.2.1 _ _ (mrec.2.1 _ _ (recordLink_edge g url v dep))
          · exact mrest.2.2 v (mrec.2.2 v (recordLink_hasKey_self g url v dep))
        · exact b1 v hvr hskip hint
    · obtain ⟨a, b⟩ := ih vis g hsub
      refine ⟨a, ?_⟩
      intro v hv hskip hint
      rcases List.mem_cons.mp hv with rfl | hvr
      · rw [hint] at h2
        exact absurd h2 (by simp)
      · exact b v hvr hskip hint

theorem analyzeGo_complete (site : Site)
    (HS : ∀ u, (site.content u).isSome = true → u ∈ site.pages) :
    ∀ (fuel : Nat) (u : String) (dep : Nat) (vis : List String) (g : LinkState),
      walkMeasure site vis + 1 ≤ fuel →
      u ∈ (analyzeGo site fuel u dep (vis, g)).1 ∧
      ∀ w ∈ (analyzeGo site fuel u dep (vis, g)).1, w ∉ vis →
        ProcessedIn site (analyzeGo site fuel u dep (vis, g)).1
          (analyzeGo site fuel u dep (vis, g)).2 w := by
  intro fuel
  induction fuel with
  | zero => intro u dep vis g hf; exact absurd hf (by omega)
  | succ fuel ih =>
    intro u dep vis g hf
    unfold analyzeGo
    split_ifs with h1
    · exact ⟨h1, fun w hw hnw => absurd hw hnw⟩
    · cases hc : site.content u with
      | none =>
        constructor
        · exact List.mem_cons_self _ _
        · intro w hw hnw
          have hwu : w = u := by
            rcases List.mem_cons.mp hw with e | hv
            · exact e
            · exact absurd hv hnw
          subst hwu
          intro doc hdoc
          rw [hc] at hdoc
          exact absurd hdoc (by simp)
      | some doc =>
        have hu : u ∈ site.pages := HS u (by rw [hc]; rfl)
        have hlt : walkMeasure site (u :: vis) < walkMeasure site vis :=
          walkMeasure_lt site vis u hu h1
        obtain ⟨ca, cb⟩ := analyzeLoop_complete site
          (fun u' s => analyzeGo site fuel u' (dep + 1) s) u dep (u :: vis)
          (fun u' s => analyzeGo_mono site fuel u' (dep + 1) s)
          (fun u' s hsub hnu => by
            have hm : walkMeasure site s.1 ≤ walkMeasure site (u :: vis) :=
              walkMeasure_mono site _ _ hsub
            exact ih u' (dep + 1) s.1 s.2 (by omega))
          doc.links (u :: vis) g (fun x h => h)
        have m := analyzeLoop_mono site
          (fun u' s => analyzeGo site fuel u' (dep + 1) s) u dep
          (fun u' s => analyzeGo_mono site fuel u' (dep + 1) s)
          doc.links (u :: vis) g
        constructor
        · exact m.1 u (List.mem_cons_self _ _)
        · intro w hw hnw
          by_cases hwu : w = u
          · subst hwu
            intro doc' hdoc' v hv
            have hdd : doc' = doc := by
              rw [hc] at hdoc'
              exact (Option.some.injEq _ _).mp hdoc'.symm
            subst hdd
            exact cb v hv.1 hv.2.1 hv.2.2
          · refine ca w hw ?_
            intro hmem
            rcases List.mem_cons.mp hmem with e | hv
            · exact hwu e
            · exact hnw hv

theorem analyzeLoop_noop (site : Site)
    (recur : String → List String × LinkState → List String × LinkState)
    (V : List String) (url : String) (dep : Nat) (g0 : LinkState)
    (hrec : ∀ u vis, u ∈ V → (∀ x ∈ vis, x ∈ V) →
      (recur u (vis, g0)).2 = g0 ∧ ∀ x ∈ (recur u (vis, g0)).1, x ∈ V) :
    ∀ links : List String,
      (∀ v ∈ links, skipScheme site v = false →
        isInternalTo site (site.netlocOf url) v = true →
        edgeIn g0 url v ∧ v ∈ V ∧ hasKey g0.page_depths v = true) →
      ∀ vis : List String, (∀ x ∈ vis, x ∈ V) →
      (analyzeLoop site recur url dep links (vis, g0)).2 = g0 ∧
      ∀ x ∈ (analyzeLoop site recur url dep links (vis, g0)).1, x ∈ V := by
  intro links
  induction links with
  | nil => intro hl vis hv; exact ⟨rfl, hv⟩
  | cons l rest ih =>
    intro hl vis hv
    have hltail : ∀ v ∈ rest, skipScheme site v = false →
        isInternalTo site (site.netlocOf url) v = true →
        edgeIn g0 url v ∧ v ∈ V ∧ hasKey g0.page_depths v = true :=
      fun v hv' => hl v (List.mem_cons_of_mem _ hv')
    unfold analyzeLoop
    split_ifs with h1 h2 h3
    · exact ih hltail vis hv
    · have hll := hl l (List.mem_cons_self _ _) (by simpa using h1) h2
      rw [recordLink_noop g0 url l dep hll.1 hll.2.2]
      exact ih hltail vis hv
    · have hll := hl l (List.mem_cons_self _ _) (by simpa using h1) h2
      rw [recordLink_noop g0 url l dep hll.1 hll.2.2]
      obtain ⟨hg, hV1⟩ := hrec l vis hll.2.1 hv
      rcases hs : recur l (vis, g0) with ⟨v1, g1⟩
      rw [hs] at hg hV1
      dsimp only at hg hV1
      subst hg
      dsimp only
      rw [hs]
      exact ih hltail v1 hV1
    · exact ih hltail vis hv

theorem analyzeGo_noop (site : Site) (V : List String) (g0 : LinkState)
    (hcl : Closed site V g0) :
    ∀ (fuel : Nat) (u : String) (dep : Nat) (vis : List String),
      u ∈ V → (∀ x ∈ vis, x ∈ V) →
      (analyzeGo site fuel u dep (vis, g0)).2 = g0 ∧
      ∀ x ∈ (analyzeGo site fuel u dep (vis, g0)).1, x ∈ V := by
  intro fuel
  induction fuel with
  | zero => intro u dep vis hu hv; exact ⟨rfl, hv⟩
  | succ fuel ih =>
    intro u dep vis hu hv
    have hv1 : ∀ x ∈ u :: vis, x ∈ V := by
      intro x hx
      rcases List.mem_cons.mp hx with e | hm
      · exact e ▸ hu
      · exact hv x hm
    unfold analyzeGo
    split_ifs with h1
    · exact ⟨rfl, hv⟩
    · cases hcon : site.content u with
      | none => exact ⟨rfl, hv1⟩
      | some doc =>
        refine analyzeLoop_noop site _ V u dep g0 ?_ doc.links ?_ (u :: vis) hv1
        · intro u' vis' hu' hv'
          exact ih u' (dep + 1) vis' hu' hv'
        · intro v hvl hs hi
          exact hcl u hu doc hcon v ⟨hvl, hs, hi⟩

theorem analyze_internal_links_noop (site : Site) (V : List String)
    (fuel : Nat) (u : String) (g : LinkState) (hcl : Closed site V g)
    (hu : u ∈ V) :
    analyze_internal_links site fuel u g =
      { g with page_depths := setVal g.page_depths u 0 } := by
  unfold analyze_internal_links
  refine (analyzeGo_noop site V _ ?_ fuel u 0 [] hu ?_).1
  · intro w hw doc hdoc v hv
    obtain ⟨he, hm, hk⟩ := hcl w hw doc hdoc v hv
    exact ⟨he, hm, hasKey_setVal_mono _ _ _ _ hk⟩
  · intro x hx
    cases hx

/-! Frames: the non-graph phases of `crawl_site` leave the link graph and
the orphan set untouched. -/

theorem get_robots_txt_frame (site : Site) (st : CrawlState) :
    (get_robots_txt site st).graph = st.graph ∧
    (get_robots_txt site st).orphan_pages = st.orphan_pages := by
  unfold get_robots_txt
  cases h : st.robots_txt_content
  · exact ⟨rfl, rfl⟩
  · exact ⟨rfl, rfl⟩

theorem trackTitle_go_frame (doc : PageDoc) (url : String) (st : CrawlState) :
    (trackTitle doc url st).1.graph = st.graph ∧
    (trackTitle doc url st).1.orphan_pages = st.orphan_pages := by
  unfold trackTitle
  dsimp only
  repeat' split
  all_goals exact ⟨rfl, rfl⟩

theorem trackDesc_go_frame (doc : PageDoc) (url : String) (st : CrawlState) :
    (trackDesc doc url st).1.graph = st.graph ∧
    (trackDesc doc url st).1.orphan_pages = st.orphan_pages := by
  unfold trackDesc
  dsimp only
  repeat' split
  all_goals exact ⟨rfl, rfl⟩

theorem trackH1_go_frame (doc : PageDoc) (st : CrawlState) :
    (trackH1 doc st).graph = st.graph ∧
    (trackH1 doc st).orphan_pages = st.orphan_pages := by
  unfold trackH1
  split
  · exact ⟨rfl, rfl⟩
  · exact ⟨rfl, rfl⟩

theorem imagesLoop_go_frame :
    ∀ (imgs : List (String × String)) (st : CrawlState),
      (imagesLoop imgs st).graph = st.graph ∧
      (imagesLoop imgs st).orphan_pages = st.orphan_pages := by
  intro imgs
  induction imgs with
  | nil => intro st; exact ⟨rfl, rfl⟩
  | cons a rest ih =>
    intro st
    obtain ⟨x, alt⟩ := a
    unfold imagesLoop
    dsimp only
    split_ifs with h
    · exact ih _
    · exact ih _

theorem trackContent_go_frame (site : Site) (doc : PageDoc) (url : String)
    (st : CrawlState) :
    (trackContent site doc url st).1.graph = st.graph ∧
    (trackContent site doc url st).1.orphan_pages = st.orphan_pages := by
  unfold trackContent
  dsimp only
  repeat' split
  all_goals exact ⟨rfl, rfl⟩

theorem extract_metadata_frame (site : Site) (doc : PageDoc) (url : String)
    (st : CrawlState) :
    (∀ p, extract_metadata site doc url st = .error p →
      p.2.graph = st.graph ∧ p.2.orphan_pages = st.orphan_pages) ∧
    (∀ q, extract_metadata site doc url st = .ok q →
      q.1.graph = st.graph ∧ q.1.orphan_pages = st.orphan_pages) := by
  unfold extract_metadata
  cases ha : analyze_structured_data doc url st.sdata with
  | error x =>
    obtain ⟨ex, ss⟩ := x
    constructor
    · intro p hp
      rw [Except.error.injEq] at hp
      subst hp
      exact ⟨rfl, rfl⟩
    · intro q hq
      exact absurd hq (by simp)
  | ok r =>
    obtain ⟨ss, sd⟩ := r
    constructor
    · intro p hp
      exact absurd hp (by simp)
    · intro q hq
      rw [Except.ok.injEq] at hq
      subst hq
      dsimp only
      have h1 := trackTitle_go_frame doc url { st with sdata := ss }
      have h2 := trackDesc_go_frame doc url
        (trackTitle doc url { st with sdata := ss }).1
      have h3 := trackH1_go_frame doc
        (trackDesc doc url (trackTitle doc url { st with sdata := ss }).1).1
      have h4 := imagesLoop_go_frame doc.images
        (trackH1 doc
          (trackDesc doc url (trackTitle doc url { st with sdata := ss }).1).1)
      have h5 := trackContent_go_frame site doc url
        (imagesLoop doc.images
          (trackH1 doc
            (trackDesc doc url (trackTitle doc url { st with sdata := ss }).1).1))
      exact ⟨h5.1.trans (h4.1.trans (h3.1.trans (h2.1.trans h1.1))),
             h5.2.trans (h4.2.trans (h3.2.trans (h2.2.trans h1.2)))⟩

theorem metaRobotsCheck_frame (doc : PageDoc) (st : CrawlState)
    (idx : Indexability) :
    (metaRobotsCheck doc st idx).1.graph = st.graph ∧
    (metaRobotsCheck doc st idx).1.orphan_pages = st.orphan_pages := by
  unfold metaRobotsCheck
  dsimp only
  repeat' split
  all_goals exact ⟨rfl, rfl⟩

theorem canonicalChecks_frame (site : Site) (doc : PageDoc) (url : String)
    (st : CrawlState) (idx : Indexability) :
    (canonicalChecks site doc url st idx).1.graph = st.graph ∧
    (canonicalChecks site doc url st idx).1.orphan_pages = st.orphan_pages := by
  unfold canonicalChecks
  dsimp only
  repeat' split
  all_goals exact ⟨rfl, rfl⟩

theorem check_indexability_frame (site : Site) (doc : PageDoc) (url : String)
    (st : CrawlState) :
    (check_indexability site doc url st).1.graph = st.graph ∧
    (check_indexability site doc url st).1.orphan_pages = st.orphan_pages := by
  unfold check_indexability
  dsimp only
  have h1 := metaRobotsCheck_frame doc st
    ⟨is_allowed_by_robots st.robots_txt_content url, "index,follow", url,
     true, none, []⟩
  have h2 := canonicalChecks_frame site doc url
    (metaRobotsCheck doc st
      ⟨is_allowed_by_robots st.robots_txt_content url, "index,follow", url,
       true, none, []⟩).1
    (metaRobotsCheck doc st
      ⟨is_allowed_by_robots st.robots_txt_content url, "index,follow", url,
       true, none, []⟩).2
  exact ⟨h2.1.trans h1.1, h2.2.trans h1.2⟩

/-! The orphan-identification loop, characterized. -/

theorem identifyLoop_spec :
    ∀ (pages : List String) (g : LinkState) (orphans : List String),
      (identifyLoop g orphans pages).1.internal_links = g.internal_links ∧
      (identifyLoop g orphans pages).1.page_depths = g.page_depths ∧
      (∀ k, getSet (identifyLoop g orphans pages).1.inbound_links k =
        getSet g.inbound_links k) ∧
      (∀ x, x ∈ (identifyLoop g orphans pages).2 ↔
        x ∈ orphans ∨ (x ∈ pages ∧ getSet g.inbound_links x = [])) := by
  intro pages
  induction pages with
  | nil =>
    intro g orphans
    exact ⟨rfl, rfl, fun k => rfl, by intro x; simp [identifyLoop]⟩
  | cons p rest ih =>
    intro g orphans
    obtain ⟨i1, i2, i3, i4⟩ := ih { g with inbound_links := ensureKey g.inbound_links p }
      (if getSet (ensureKey g.inbound_links p) p = [] then setAdd orphans p
       else orphans)
    have hred : identifyLoop g orphans (p :: rest) =
        identifyLoop { g with inbound_links := ensureKey g.inbound_links p }
          (if getSet (ensureKey g.inbound_links p) p = [] then setAdd orphans p
           else orphans) rest := rfl
    rw [hred]
    refine ⟨i1, i2, ?_, ?_⟩
    · intro k
      exact (i3 k).trans (getSet_ensureKey g.inbound_links p k)
    · intro x
      rw [i4 x]
      have hgs : ∀ y, getSet (ensureKey g.inbound_links p) y = getSet g.inbound_links y :=
        fun y => getSet_ensureKey g.inbound_links p y
      by_cases hp : getSet g.inbound_links p = []
      · rw [if_pos ((hgs p).trans hp)]
        constructor
        · rintro (h | h)
          · rcases (mem_setAdd_iff orphans p x).mp h with h' | rfl
            · exact Or.inl h'
            · exact Or.inr ⟨List.mem_cons_self _ _, hp⟩
          · rw [hgs x] at h
            exact Or.inr ⟨List.mem_cons_of_mem _ h.1, h.2⟩
        · rintro (h | ⟨hm, he⟩)
          · exact Or.inl ((mem_setAdd_iff orphans p x).mpr (Or.inl h))
          · rcases List.mem_cons.mp hm with rfl | hr
            · exact Or.inl ((mem_setAdd_iff orphans x x).mpr (Or.inr rfl))
            · exact Or.inr ⟨hr, by rw [hgs x]; exact he⟩
      · rw [if_neg (fun he => hp ((hgs p).symm.trans he))]
        constructor
        · rintro (h | h)
          · exact Or.inl h
          · rw [hgs x] at h
            exact Or.inr ⟨List.mem_cons_of_mem _ h.1, h.2⟩
        · rintro (h | ⟨hm, he⟩)
          · exact Or.inl h
          · rcases List.mem_cons.mp hm with rfl | hr
            · exact absurd he hp
            · exact Or.inr ⟨hr, by rw [hgs x]; exact he⟩

/-! The crawl-level invariant of claim C2. -/

/-- The orphan set is exactly the keys of the outbound map whose inbound
set is empty. -/
def orphExact (st : CrawlState) : Prop :=
  ∀ x, x ∈ st.orphan_pages ↔
    (x ∈ keysOf st.graph.internal_links ∧
     getSet st.graph.inbound_links x = [])

/-- Invariant carried through the per-child crawls: the inbound sets are
frozen at `F`, the graph is closed over `V`, and the orphan set is exact. -/
def crawlInv (site : Site) (V : List String) (F : String → List String)
    (st : CrawlState) : Prop :=
  (∀ x, getSet st.graph.inbound_links x = F x) ∧ Closed site V st.graph ∧
    orphExact st

theorem closed_ext (site : Site) (V : List String) {g g' : LinkState}
    (hi : ∀ k, getSet g'.internal_links k = getSet g.internal_links k)
    (hb : ∀ k, getSet g'.inbound_links k = getSet g.inbound_links k)
    (hd : g'.page_depths = g.page_depths) (h : Closed site V g) :
    Closed site V g' := by
  intro w hw doc hdoc v hv
  obtain ⟨he, hm, hk⟩ := h w hw doc hdoc v hv
  refine ⟨⟨?_, ?_⟩, hm, ?_⟩
  · rw [hi w]; exact he.1
  · rw [hb v]; exact he.2
  · rw [hd]; exact hk

theorem closed_setDepth (site : Site) (V : List String) (g : LinkState)
    (k : String) (v : Nat) (h : Closed site V g) :
    Closed site V { g with page_depths := setVal g.page_depths k v } := by
  intro w hw doc hdoc u hu
  obtain ⟨he, hm, hk⟩ := h w hw doc hdoc u hu
  exact ⟨he, hm, hasKey_setVal_mono _ _ _ _ hk⟩

theorem crawlInv_ext (site : Site) (V : List String) (F : String → List String)
    {st st' : CrawlState} (hg : st'.graph = st.graph)
    (ho : st'.orphan_pages = st.orphan_pages) (h : crawlInv site V F st) :
    crawlInv site V F st' := by
  obtain ⟨h1, h2, h3⟩ := h
  refine ⟨?_, ?_, ?_⟩
  · intro x; rw [hg]; exact h1 x
  · rw [hg]; exact h2
  · intro x; rw [ho, hg]; exact h3 x

theorem crawlInv_pre (site : Site) (V : List String) (F : String → List String)
    (st : CrawlState) (T : TechState) (h : crawlInv site V F st) :
    crawlInv site V F { get_robots_txt site st with tech := T } :=
  crawlInv_ext site V F (get_robots_txt_frame site st).1
    (get_robots_txt_frame site st).2 h

theorem crawlInv_walk (site : Site) (V : List String) (F : String → List String)
    (fuel : Nat) (u : String) (st : CrawlState) (h : crawlInv site V F st)
    (hu : u ∈ V) :
    crawlInv site V F
      { st with graph := analyze_internal_links site fuel u st.graph } := by
  rw [analyze_internal_links_noop site V fuel u st.graph h.2.1 hu]
  obtain ⟨h1, h2, h3⟩ := h
  refine ⟨?_, ?_, ?_⟩
  · exact h1
  · exact closed_setDepth site V st.graph u 0 h2
  · exact h3

theorem crawlInv_metrics (site : Site) (V : List String)
    (F : String → List String) (u : String) (st : CrawlState)
    (h : crawlInv site V F st) (hFu : F u ≠ []) :
    crawlInv site V F
      { st with graph := (get_page_linking_metrics u st.graph).1 } := by
  obtain ⟨h1, h2, h3⟩ := h
  refine ⟨?_, ?_, ?_⟩
  · intro x
    exact (getSet_ensureKey st.graph.inbound_links u x).trans (h1 x)
  · refine closed_ext site V ?_ ?_ ?_ h2
    · intro k; exact getSet_ensureKey st.graph.internal_links u k
    · intro k; exact getSet_ensureKey st.graph.inbound_links u k
    · rfl
  · intro x
    constructor
    · intro hx
      obtain ⟨hk, he⟩ := (h3 x).mp hx
      exact ⟨(keysOf_ensureKey_mem _ u x).mpr (Or.inl hk),
        (getSet_ensureKey st.graph.inbound_links u x).trans he⟩
    · rintro ⟨hk, he⟩
      have he' : getSet st.graph.inbound_links x = [] :=
        (getSet_ensureKey st.graph.inbound_links u x).symm.trans he
      apply (h3 x).mpr
      refine ⟨?_, he'⟩
      rcases (keysOf_ensureKey_mem _ u x).mp hk with hm | rfl
      · exact hm
      · exact absurd ((h1 x).symm.trans he') hFu

theorem crawlInv_identify (site : Site) (V : List String)
    (F : String → List String) (st : CrawlState) (h : crawlInv site V F st) :
    crawlInv site V F
      { st with
        graph := (identifyLoop st.graph st.orphan_pages
          (keysOf st.graph.internal_links)).1,
        orphan_pages := (identifyLoop st.graph st.orphan_pages
          (keysOf st.graph.internal_links)).2 } := by
  obtain ⟨h1, h2, h3⟩ := h
  obtain ⟨i1, i2, i3, i4⟩ := identifyLoop_spec (keysOf st.graph.internal_links)
    st.graph st.orphan_pages
  refine ⟨?_, ?_, ?_⟩
  · intro x
    exact (i3 x).trans (h1 x)
  · exact closed_ext site V (fun k => by rw [i1]) i3 i2 h2
  · intro x
    constructor
    · intro hx
      rcases (i4 x).mp hx with ho | ⟨hk, he⟩
      · obtain ⟨hk, he⟩ := (h3 x).mp ho
        refine ⟨?_, (i3 x).trans he⟩
        show x ∈ keysOf (identifyLoop st.graph st.orphan_pages
          (keysOf st.graph.internal_links)).1.internal_links
        rw [i1]
        exact hk
      · refine ⟨?_, (i3 x).trans he⟩
        show x ∈ keysOf (identifyLoop st.graph st.orphan_pages
          (keysOf st.graph.internal_links)).1.internal_links
        rw [i1]
        exact hk
    · rintro ⟨hk, he⟩
      have hk' : x ∈ keysOf (identifyLoop st.graph st.orphan_pages
          (keysOf st.graph.internal_links)).1.internal_links := hk
      rw [i1] at hk'
      have he' : getSet st.graph.inbound_links x = [] := (i3 x).symm.trans he
      exact (i4 x).mpr (Or.inr ⟨hk', he'⟩)

theorem crawlInv_tail (site : Site) (V : List String)
    (F : String → List String) (fuel : Nat) (u : String) (A : CrawlState)
    (T : TechState) (hA : crawlInv site V F A) (hu : u ∈ V) (hFu : F u ≠ []) :
    crawlInv site V F
      (let st2 := { A with graph := analyze_internal_links site fuel u A.graph }
       let st3 := { st2 with tech := T }
       let p4 := get_page_linking_metrics u st3.graph
       let st4 := { st3 with graph := p4.1 }
       let p5 := get_linking_metrics st4.graph st4.orphan_pages
       { st4 with graph := p5.1, orphan_pages := p5.2.1 }) := by
  have h2 := crawlInv_walk site V F fuel u A hA hu
  have h3 : crawlInv site V F
      { { A with graph := analyze_internal_links site fuel u A.graph } with
        tech := T } :=
    crawlInv_ext site V F rfl rfl h2
  have h4 := crawlInv_metrics site V F u _ h3 hFu
  exact crawlInv_identify site V F _ h4

theorem crawl_site_inv (site : Site) (V : List String)
    (F : String → List String) (fuel : Nat) (u : String) (d : Nat)
    (cv : List String) (st : CrawlState) (hd : d ≠ 0)
    (hinv : crawlInv site V F st) (hu : u ∈ V) (hFu : F u ≠ []) :
    crawlInv site V F (crawl_site site fuel u d cv st).2.2 := by
  by_cases hin : u ∈ cv
  · rw [crawl_site.eq_def, if_pos hin]
    exact hinv
  · rw [crawl_site.eq_def, if_neg hin]
    dsimp only
    split
    · exact crawlInv_pre site V F st _ hinv
    · next doc heq1 =>
      split
      · next p heq =>
        exact crawlInv_ext site V F
          (((extract_metadata_frame site doc u _).1 p heq).1)
          (((extract_metadata_frame site doc u _).1 p heq).2)
          (crawlInv_pre site V F st _ hinv)
      · next q heq =>
        rw [dif_neg hd]
        have hq : crawlInv site V F q.1 :=
          crawlInv_ext site V F
            (((extract_metadata_frame site doc u _).2 q heq).1)
            (((extract_metadata_frame site doc u _).2 q heq).2)
            (crawlInv_pre site V F st _ hinv)
        have hp2 : crawlInv site V F (check_indexability site doc u q.1).1 :=
          crawlInv_ext site V F (check_indexability_frame site doc u q.1).1
            (check_indexability_frame site doc u q.1).2 hq
        exact crawlInv_tail site V F fuel u (check_indexability site doc u q.1).1
          (probeLinks site (site.netlocOf u) (u :: cv) doc.links []
            (check_indexability site doc u q.1).1.tech).1
          hp2 hu hFu

theorem crawlChildren_inv (site : Site) (V : List String)
    (F : String → List String) (fuel d : Nat) (hd : d ≠ 0) :
    ∀ (ls cv : List String) (st : CrawlState), crawlInv site V F st →
      (∀ u ∈ ls, u ∈ V ∧ F u ≠ []) →
      crawlInv site V F (crawlChildren site fuel ls d cv st).2.2 := by
  intro ls
  induction ls with
  | nil =>
    intro cv st h _
    rw [crawlChildren.eq_def]
    exact h
  | cons u rest ih =>
    intro cv st h hls
    rw [crawlChildren.eq_def]
    dsimp only
    have h1 := crawl_site_inv site V F fuel u d cv st hd h
      (hls u (List.mem_cons_self _ _)).1 (hls u (List.mem_cons_self _ _)).2
    have h2 := ih (crawl_site site fuel u d cv st).2.1
      (crawl_site site fuel u d cv st).2.2 h1
      (fun v hv => hls v (List.mem_cons_of_mem _ hv))
    split
    · exact h2
    · exact h2

theorem crawlInv_root (site : Site) (fuel : Nat) (u : String) (A : CrawlState)
    (T : TechState)
    (HS : ∀ v, (site.content v).isSome = true → v ∈ site.pages)
    (hfuel : site.pages.length + 1 ≤ fuel)
    (hgA : A.graph = LinkState.init) (hoA : A.orphan_pages = []) :
    ∃ V : List String,
      u ∈ V ∧
      crawlInv site V
        (fun x => getSet
          (analyze_internal_links site fuel u LinkState.init).inbound_links x)
        (let st2 := { A with graph := analyze_internal_links site fuel u A.graph }
         let st3 := { st2 with tech := T }
         let p4 := get_page_linking_metrics u st3.graph
         let st4 := { st3 with graph := p4.1 }
         let p5 := get_linking_metrics st4.graph st4.orphan_pages
         { st4 with graph := p5.1, orphan_pages := p5.2.1 }) ∧
      ProcessedIn site V (analyze_internal_links site fuel u LinkState.init) u := by
  rw [hgA]
  have hfm : walkMeasure site [] + 1 ≤ fuel := by
    have hle := List.length_filter_le
      (fun v => decide (v ∉ ([] : List String))) site.pages
    unfold walkMeasure
    omega
  obtain ⟨hseed, hproc⟩ := analyzeGo_complete site HS fuel u 0 []
    { LinkState.init with page_depths := setVal LinkState.init.page_depths u 0 }
    hfm
  have hcl : Closed site
      (analyzeGo site fuel u 0 ([],
        { LinkState.init with
          page_depths := setVal LinkState.init.page_depths u 0 })).1
      (analyzeGo site fuel u 0 ([],
        { LinkState.init with
          page_depths := setVal LinkState.init.page_depths u 0 })).2 :=
    fun w hw => hproc w hw (List.not_mem_nil w)
  obtain ⟨i1, i2, i3, i4⟩ := identifyLoop_spec
    (keysOf (get_page_linking_metrics u
      (analyze_internal_links site fuel u LinkState.init)).1.internal_links)
    (get_page_linking_metrics u
      (analyze_internal_links site fuel u LinkState.init)).1
    A.orphan_pages
  refine ⟨(analyzeGo site fuel u 0 ([],
    { LinkState.init with
      page_depths := setVal LinkState.init.page_depths u 0 })).1,
    hseed, ⟨?_, ?_, ?_⟩, ?_⟩
  · intro x
    exact (i3 x).trans (getSet_ensureKey
      (analyze_internal_links site fuel u LinkState.init).inbound_links u x)
  · have hclG : Closed site
        (analyzeGo site fuel u 0 ([],
          { LinkState.init with
            page_depths := setVal LinkState.init.page_depths u 0 })).1
        (get_page_linking_metrics u
          (analyze_internal_links site fuel u LinkState.init)).1 := by
      refine closed_ext site _ ?_ ?_ ?_ hcl
      · intro k
        exact getSet_ensureKey
          (analyze_internal_links site fuel u LinkState.init).internal_links u k
      · intro k
        exact getSet_ensureKey
          (analyze_internal_links site fuel u LinkState.init).inbound_links u k
      · rfl
    refine closed_ext site _ ?_ ?_ ?_ hclG
    · intro k
      exact congrArg (fun m => getSet m k) i1
    · exact i3
    · exact i2
  · intro x
    constructor
    · intro hx
      have hx' : x ∈ (identifyLoop
          (get_page_linking_metrics u
            (analyze_internal_links site fuel u LinkState.init)).1
          A.orphan_pages
          (keysOf (get_page_linking_metrics u
            (analyze_internal_links site fuel u LinkState.init)).1.internal_links)).2 :=
        hx
      rcases (i4 x).mp hx' with ho | ⟨hk, he⟩
      · rw [hoA] at ho
        exact absurd ho (List.not_mem_nil x)
      · constructor
        · show x ∈ keysOf (identifyLoop
            (get_page_linking_metrics u
              (analyze_internal_links site fuel u LinkState.init)).1
            A.orphan_pages
            (keysOf (get_page_linking_metrics u
              (analyze_internal_links site fuel u LinkState.init)).1.internal_links)).1.internal_links
          rw [i1]
          exact hk
        · show getSet (identifyLoop
            (get_page_linking_metrics u
              (analyze_internal_links site fuel u LinkState.init)).1
            A.orphan_pages
            (keysOf (get_page_linking_metrics u
              (analyze_internal_links site fuel u LinkState.init)).1.internal_links)).1.inbound_links x = []
          rw [i3 x]
          exact he
    · rintro ⟨hk, he⟩
      have hk' : x ∈ keysOf (identifyLoop
          (get_page_linking_metrics u
            (analyze_internal_links site fuel u LinkState.init)).1
          A.orphan_pages
          (keysOf (get_page_linking_metrics u
            (analyze_internal_links site fuel u LinkState.init)).1.internal_links)).1.internal_links :=
        hk
      have he' : getSet (identifyLoop
          (get_page_linking_metrics u
            (analyze_internal_links site fuel u LinkState.init)).1
          A.orphan_pages
          (keysOf (get_page_linking_metrics u
            (analyze_internal_links site fuel u LinkState.init)).1.internal_links)).1.inbound_links x = [] :=
        he
      rw [i1] at hk'
      rw [i3 x] at he'
      show x ∈ (identifyLoop
          (get_page_linking_metrics u
            (analyze_internal_links site fuel u LinkState.init)).1
          A.orphan_pages
          (keysOf (get_page_linking_metrics u
            (analyze_internal_links site fuel u LinkState.init)).1.internal_links)).2
      exact (i4 x).mpr (Or.inr ⟨hk', he'⟩)
  · exact hproc u hseed (List.not_mem_nil u)

/-- Claim C2: after a crawl from scratch (fresh crawler state, empty
visited set, enough fuel for the embedded link walk to cover every
fetchable page), the orphan set contains exactly those URLs of the
outbound-link universe (the keys of `internal_links`) whose inbound-link
set is empty; in particular a page with at least one recorded inbound link
is never in the orphan set. -/
theorem claim_C2_orphan_exact (site : Site) (fuel : Nat) (url : String)
    (HS : ∀ u, (site.content u).isSome = true → u ∈ site.pages)
    (hfuel : site.pages.length + 1 ≤ fuel) :
    ∀ x, x ∈ (crawl_site site fuel url 0 [] CrawlState.init).2.2.orphan_pages ↔
      (x ∈ keysOf
          (crawl_site site fuel url 0 []
            CrawlState.init).2.2.graph.internal_links ∧
       getSet
          (crawl_site site fuel url 0 []
            CrawlState.init).2.2.graph.inbound_links x = []) := by
  suffices H : orphExact (crawl_site site fuel url 0 [] CrawlState.init).2.2 by
    exact H
  rw [crawl_site.eq_def]
  rw [if_neg (List.not_mem_nil url)]
  dsimp only
  split
  · intro x
    constructor
    · intro hx
      exact absurd hx (List.not_mem_nil x)
    · rintro ⟨hk, _⟩
      exact absurd hk (List.not_mem_nil x)
  · next doc heq1 =>
    split
    · next p heq =>
      have hf := (extract_metadata_frame site doc url _).1 p heq
      intro x
      rw [hf.1, hf.2]
      constructor
      · intro hx
        exact absurd hx (List.not_mem_nil x)
      · rintro ⟨hk, _⟩
        exact absurd hk (List.not_mem_nil x)
    · next q heq =>
      rw [dif_pos rfl]
      have hg : (check_indexability site doc url q.1).1.graph = LinkState.init :=
        (check_indexability_frame site doc url q.1).1.trans
          ((((extract_metadata_frame site doc url _).2 q heq).1).trans rfl)
      have hor : (check_indexability site doc url q.1).1.orphan_pages = [] :=
        (check_indexability_frame site doc url q.1).2.trans
          ((((extract_metadata_frame site doc url _).2 q heq).2).trans rfl)
      obtain ⟨V, huV, hinv5, hPu⟩ := crawlInv_root site fuel url
        (check_indexability site doc url q.1).1
        (probeLinks site (site.netlocOf url) [url] doc.links []
          (check_indexability site doc url q.1).1.tech).1
        HS hfuel hg hor
      have hcond : ∀ v ∈ (probeLinks site (site.netlocOf url) [url] doc.links []
          (check_indexability site doc url q.1).1.tech).2,
          v ∈ V ∧ getSet
            (analyze_internal_links site fuel url
              LinkState.init).inbound_links v ≠ [] := by
        intro v hv
        rw [probeLinks_acc] at hv
        rcases collectScopeLinks_mem site _ _ doc.links [] v hv with
          hx | ⟨hm, hsk, hint, _⟩
        · exact absurd hx (List.not_mem_nil v)
        · obtain ⟨hedge, hmem, _⟩ := hPu doc heq1 v ⟨hm, hsk, hint⟩
          exact ⟨hmem, List.ne_nil_of_mem hedge.2⟩
      exact (crawlChildren_inv site V
        (fun x => getSet
          (analyze_internal_links site fuel url LinkState.init).inbound_links x)
        fuel (0 + 1) (by omega)
        (probeLinks site (site.netlocOf url) [url] doc.links []
          (check_indexability site doc url q.1).1.tech).2
        [url] _ hinv5 hcond).2.2

/-- Witness: claim C2 applied to the two-page demo site, instantiated at
the seed URL (which has outbound links and no inbound link). -/
theorem claim_C2_witness :
    ("https://s/" ∈
        (crawl_site demoSite 5 "https://s/" 0 []
          CrawlState.init).2.2.orphan_pages ↔
      ("https://s/" ∈ keysOf
          (crawl_site demoSite 5 "https://s/" 0 []
            CrawlState.init).2.2.graph.internal_links ∧
       getSet
          (crawl_site demoSite 5 "https://s/" 0 []
            CrawlState.init).2.2.graph.inbound_links "https://s/" = [])) :=
  claim_C2_orphan_exact demoSite 5 "https://s/"
    (by
      intro u hu
      by_cases h1 : u = "https://s/"
      · subst h1
        decide
      · by_cases h2 : u = "https://s/b"
        · subst h2
          decide
        · have hc : demoSite.content u = none := by
            unfold demoSite
            dsimp only
            rw [if_neg h1, if_neg h2]
          rw [hc] at hu
          exact absurd hu (by simp))
    (by decide) "https://s/"

end SiteAnalyzer
